import Mathlib

/-!
Verification of the UNO card-game rule engine.

The definitions below are a shallow embedding of the card-game state
machine: `src/shared/src/common.ts` (advanceMove, updateIfGameEnded,
drawCard, playDrawMove, playMove, quitCardGame) and
`src/townService/src/town/CardGameArea.ts` (genUnoDeck, startCardGame,
_calculateNewElos, _calculateNewEloRatingChange, _choose2), over the
record types of `CoveyTownSocket` (Card, PlayableMove, OngoingCardGame,
EloRating, ...).

Randomness is abstracted: `shuffleCards` performs an in-place
Fisher-Yates permutation, so every operation that shuffles takes the
permutation as an explicit function argument (`sh : List Card → List Card`),
and theorems that need it assume the argument permutes its input.
JavaScript `Math.round` on a number `x` equals `⌊x + 1/2⌋`, which is
Mathlib's `round` on `ℚ`; the Elo arithmetic is modelled over `ℚ`, with
the float exponential `10 ** x` abstracted as a function parameter
`tenPow`. Wall-clock timestamps (`Date.now()`) are passed in as a `now`
argument.  Thrown JavaScript errors are modelled by returning the state
as mutated so far, paired with `some errorMessage`.
-/

namespace Uno

/-- The `Card` variant type from `CoveyTownSocket`. -/
inductive Card where
  | number (color : String) (value : Nat)
  | draw_two (color : String)
  | reverse (color : String)
  | skip (color : String)
  | wild
  | wild_draw_four
deriving DecidableEq, Repr

instance : Inhabited Card := ⟨Card.wild⟩

/-- `card.color` for the four colored variants (`wild` cards have no color). -/
def Card.color? : Card → Option String
  | .number c _ => some c
  | .draw_two c => some c
  | .reverse c => some c
  | .skip c => some c
  | .wild => none
  | .wild_draw_four => none

/-- `card.type === WILD || card.type === WILD_DRAW_FOUR`. -/
def Card.isWild : Card → Bool
  | .wild => true
  | .wild_draw_four => true
  | _ => false

/-- `card.type === REVERSE`. -/
def Card.isReverse : Card → Bool
  | .reverse _ => true
  | _ => false

/-- `card.type === SKIP`. -/
def Card.isSkip : Card → Bool
  | .skip _ => true
  | _ => false

/-- `card.type === DRAW_TWO`. -/
def Card.isDrawTwo : Card → Bool
  | .draw_two _ => true
  | _ => false

/-- `card.type === WILD_DRAW_FOUR`. -/
def Card.isWildDrawFour : Card → Bool
  | .wild_draw_four => true
  | _ => false

def ALL_CARD_COLORS : List String := ["red", "yellow", "blue", "green"]

def MIN_PLAYERS : Nat := 2
def MAX_PLAYERS : Nat := 8
def DEFAULT_HAND_SIZE : Nat := 7

/-- `CardGamePlayer`: google email plus display name. -/
structure CardGamePlayer where
  playerId : String
  username : String
deriving DecidableEq, Repr

instance : Inhabited CardGamePlayer := ⟨⟨"", ""⟩⟩

/-- `EloRating` record (rating is a JS number, modelled as `ℚ`). -/
structure EloRating where
  playerId : String
  username : String
  rating : ℚ
  numPlayed : Nat
deriving DecidableEq, Repr

instance : Inhabited EloRating := ⟨⟨"", "", 1000, 0⟩⟩

/-- `EloRatingChange` record; `newElo` is always produced by `Math.round`. -/
structure EloRatingChange where
  player : CardGamePlayer
  prevElo : ℚ
  newElo : ℤ
deriving DecidableEq, Repr

/-- `PlayableMove`: `type` is `true` for draw moves, `false` for play moves. -/
structure PlayableMove where
  type : Bool
  card : Option Nat := none
  color : Option String := none
deriving DecidableEq, Repr

/-- `BasicMove`: a playable move or one of the synthetic log entries. -/
inductive BasicMove where
  | playable (m : PlayableMove)
  | receive_hand (cards : List Card)
  | quit
  | skip
deriving DecidableEq, Repr

/-- `FullMove`: a logged move with its author and timestamp. -/
structure FullMove where
  playerId : String
  timestamp : Nat
  move : BasicMove
deriving DecidableEq, Repr

/-- The `OngoingCardGame` aggregate. -/
structure OngoingCardGame where
  id : String
  players : List CardGamePlayer
  activePlayers : List Nat
  spectators : List String
  winners : List Nat
  hands : List (List Card)
  moves : List FullMove
  deck : List Card
  discardPile : List Card
  currentColor : String
  lastDrawPlayed : Option Nat := none
  currentPlayerIdx : Nat
  playerDirection : Bool
  prevEloRatings : List EloRating
  eloRatingChanges : List EloRatingChange
  cardsDrawnDuringGame : List Card
  startingTopCardDiscardPile : Card
  initialHands : List (List Card)
  startTime : Nat
deriving DecidableEq, Repr

/-- `NonStartedCardGame`: id plus joined players. -/
structure NonStartedCardGame where
  id : String
  players : List CardGamePlayer
deriving DecidableEq, Repr

instance : Inhabited NonStartedCardGame := ⟨⟨"", []⟩⟩

/-- The game-holding state of a `CardGameArea`. -/
structure CardGameAreaState where
  nonStartedGames : List NonStartedCardGame
  ongoingGames : List OngoingCardGame
deriving DecidableEq, Repr

/-- `CardGameArea.genUnoDeck`: one pass per entry of `ALL_CARD_COLORS`
(regardless of the filter), pushing 10 number cards and 2 each of
draw-two/reverse/skip in `actualColor = color || cardColor`, then 4
wilds and 4 wild-draw-fours only when `color === undefined`. -/
def genUnoDeck (color : Option String) : List Card :=
  (ALL_CARD_COLORS.flatMap fun cardColor =>
    let actualColor := match color with
      | some c => if c = "" then cardColor else c
      | none => cardColor
    ((List.range 10).map fun value => Card.number actualColor value) ++
      ((List.range 2).flatMap fun _ =>
        [Card.draw_two actualColor, Card.reverse actualColor, Card.skip actualColor])) ++
  (if color = none then
    (List.range 4).flatMap fun _ => [Card.wild, Card.wild_draw_four]
   else [])

example : (genUnoDeck none).length = 72 := by decide
example : (genUnoDeck (some "red")).length = 64 := by decide

/-! ## Turn advancement (`advanceMove` in `common.ts`) -/

/-- One step of `advanceMove`'s do-while body: increment with wraparound
to 0 at `players.length` when `direction` is true, else decrement with
wraparound to `players.length - 1` below 0. -/
def advanceStep (direction : Bool) (numPlayers : Nat) (idx : Nat) : Nat :=
  if direction then (if idx + 1 = numPlayers then 0 else idx + 1)
  else (if idx = 0 then numPlayers - 1 else idx - 1)

/-- The do-while loop of `advanceMove`, with explicit fuel: step at least
once, stop as soon as the index is a member of `active`. -/
def advanceLoop (active : List Nat) (direction : Bool) (numPlayers : Nat) :
    Nat → Nat → Nat
  | 0, idx => idx
  | fuel + 1, idx =>
    let idx' := advanceStep direction numPlayers idx
    if idx' ∈ active then idx' else advanceLoop active direction numPlayers fuel idx'

/-- `advanceMove`: early return when `activePlayers` is empty, otherwise
run the do-while loop (which terminates within `players.length` steps;
see the C4 theorem). -/
def advanceMove (g : OngoingCardGame) : OngoingCardGame :=
  if g.activePlayers = [] then g
  else
    { g with currentPlayerIdx :=
        (advanceLoop g.activePlayers g.playerDirection g.players.length
          g.players.length g.currentPlayerIdx) }

/-! ## Game end detection (`updateIfGameEnded`) -/

/-- `updateIfGameEnded`: when exactly one active player remains, push it
onto `winners`, empty `activePlayers`, and invoke the callback. -/
def updateIfGameEnded (cb : OngoingCardGame → OngoingCardGame)
    (g : OngoingCardGame) : OngoingCardGame :=
  if g.activePlayers.length = 1 then
    cb { g with winners := g.winners ++ [g.activePlayers.headI], activePlayers := [] }
  else g

/-! ## Drawing (`drawCard`, `playDrawMove`) -/

/-- `drawCard`: reshuffle the discard pile (minus its top card) into the
deck when the deck is empty — throwing `'Discard pile is empty'` when
there is no top card — then move the front card of the deck into the
current player's hand and the drawn-card log, or silently do nothing if
the deck is still empty.  `sh` is the `shuffleCards` permutation. -/
def drawCard (sh : List Card → List Card) (g : OngoingCardGame) :
    OngoingCardGame × Option String :=
  let step1 : OngoingCardGame × Option String :=
    if g.deck.length = 0 then
      let newDeck := sh g.discardPile.dropLast
      match g.discardPile.getLast? with
      | none => ({ g with deck := newDeck }, some "Discard pile is empty")
      | some newCard => ({ g with deck := newDeck, discardPile := [newCard] }, none)
    else (g, none)
  match step1 with
  | (g1, some e) => (g1, some e)
  | (g1, none) =>
    if g1.deck.length ≠ 0 then
      let c := g1.deck.headI
      ({ g1 with
          hands := g1.hands.set g1.currentPlayerIdx
            (g1.hands.getD g1.currentPlayerIdx [] ++ [c]),
          cardsDrawnDuringGame := g1.cardsDrawnDuringGame ++ [c],
          deck := g1.deck.drop 1 }, none)
    else (g1, none)

/-- The `for` loop of `playDrawMove`: draw `n` cards one at a time,
propagating the first thrown error. -/
def drawCards (sh : List Card → List Card) :
    Nat → OngoingCardGame → OngoingCardGame × Option String
  | 0, g => (g, none)
  | n + 1, g =>
    match drawCard sh g with
    | (g1, some e) => (g1, some e)
    | (g1, none) => drawCards sh n g1

/-- `cardGame.lastDrawPlayed || 1` (JavaScript `||`: `undefined` and `0`
are falsy). -/
def numDrawsOf (g : OngoingCardGame) : Nat :=
  match g.lastDrawPlayed with
  | none => 1
  | some n => if n = 0 then 1 else n

/-- `playDrawMove`: draw `lastDrawPlayed || 1` cards, clear
`lastDrawPlayed`, advance the turn. -/
def playDrawMove (sh : List Card → List Card) (g : OngoingCardGame) :
    OngoingCardGame × Option String :=
  match drawCards sh (numDrawsOf g) g with
  | (g1, some e) => (g1, some e)
  | (g1, none) => (advanceMove { g1 with lastDrawPlayed := none }, none)

/-! ## Playing a card (`playMove`) -/

/-- `activePlayers.splice(activeIdx, 1)` where `activeIdx` may be the
`-1` returned by `findIndex` (JS `splice(-1, 1)` removes the last
element). -/
def spliceOut (l : List Nat) : Option Nat → List Nat
  | some i => l.eraseIdx i
  | none => l.dropLast

/-- The mutation block of `playMove`'s play branch, after all validation
has passed: set `currentColor`, move the card from the hand to the
discard pile, and run the win handling when the hand became empty. -/
def playCardCore (cb : OngoingCardGame → OngoingCardGame)
    (g : OngoingCardGame) (activeIdx : Option Nat) (ci : Nat) (curCard : Card)
    (newColor : String) : OngoingCardGame :=
  let curHand := g.hands.getD g.currentPlayerIdx []
  let newHand := curHand.eraseIdx ci
  let g1 := { g with
    currentColor := newColor,
    hands := g.hands.set g.currentPlayerIdx newHand,
    discardPile := g.discardPile ++ [curCard] }
  if newHand.length = 0 then
    updateIfGameEnded cb
      { g1 with
        winners := g1.winners ++ [g.currentPlayerIdx],
        activePlayers := spliceOut g1.activePlayers activeIdx }
  else g1

/-- The card-type effect block of `playMove`: reverse (as skip when
exactly 2 active players remain), skip, draw obligations, then the
unconditional final `advanceMove`. -/
def applyCardEffects (curCard : Card) (g2 : OngoingCardGame) : OngoingCardGame :=
  let g3 :=
    if curCard.isReverse then
      if g2.activePlayers.length = 2 then advanceMove g2
      else { g2 with playerDirection := !g2.playerDirection }
    else g2
  let g4 := if curCard.isSkip then advanceMove g3 else g3
  let g5 :=
    if curCard.isDrawTwo || curCard.isWildDrawFour then
      { g4 with lastDrawPlayed := some (if curCard.isDrawTwo then 2 else 4) }
    else g4
  advanceMove g5

/-- `playMove` from `common.ts`: the draw branch delegates to
`playDrawMove`; the play branch validates (card index present, no
pending draw obligation, index resolves to a card, wild cards carry a
replacement color, other cards match `currentColor`) and then applies
`playCardCore` followed by `applyCardEffects`. -/
def playMove (sh : List Card → List Card) (cb : OngoingCardGame → OngoingCardGame)
    (g : OngoingCardGame) (m : PlayableMove) : OngoingCardGame × Option String :=
  let activeIdx := g.activePlayers.findIdx? (· = g.currentPlayerIdx)
  if m.type then playDrawMove sh g
  else
    match m.card with
    | none => (g, some "Must specify the card being played")
    | some ci =>
      if g.lastDrawPlayed ≠ none then
        (g, some "Card game requires that draw be played")
      else
        let curHand := g.hands.getD g.currentPlayerIdx []
        match curHand.get? ci with
        | none => (g, some "TypeError: cannot read properties of undefined")
        | some curCard =>
          let colorCheck : String ⊕ String :=
            if curCard.isWild then
              match m.color with
              | none => Sum.inl "Tried to play wild card without specifying color"
              | some col => Sum.inr col
            else if curCard.color?.getD "" ≠ g.currentColor then
              Sum.inl "Tried to play card with different color than current color"
            else Sum.inr g.currentColor
          match colorCheck with
          | Sum.inl e => (g, some e)
          | Sum.inr newColor =>
            (applyCardEffects curCard (playCardCore cb g activeIdx ci curCard newColor),
             none)

/-! ## Quitting (`quitCardGame`) -/

/-- `quitCardGame`: locate the player, fail unless they are active,
remove them from `activePlayers`, log a synthetic quit move, run
`updateIfGameEnded`, and advance the turn when the quitter was the
current player. -/
def quitCardGame (cb : OngoingCardGame → OngoingCardGame) (now : Nat)
    (g : OngoingCardGame) (playerId : Option String) :
    OngoingCardGame × Option String :=
  match g.players.findIdx? (fun p => playerId = some p.playerId) with
  | none =>
    (g, some "Can not quit card game if player is not active player in this card game")
  | some playerIdx =>
    match g.activePlayers.findIdx? (· = playerIdx) with
    | none =>
      (g, some "Can not quit card game if player is not active player in this card game")
    | some activeIdx =>
      let g1 := { g with
        activePlayers := g.activePlayers.eraseIdx activeIdx,
        moves := g.moves ++
          [{ playerId := (g.players.getD playerIdx default).playerId,
             timestamp := now, move := BasicMove.quit }] }
      let g2 := updateIfGameEnded cb g1
      (if playerIdx = g2.currentPlayerIdx then advanceMove g2 else g2, none)

/-! ## Elo calculation (`CardGameArea._calculateNewElos` and friends) -/

/-- `CardGameArea._choose2`. -/
def choose2 (n : ℚ) : ℚ := n * (n - 1) / 2

/-- `CardGameArea._calculateNewEloRatingChange`.  `tenPow` abstracts the
JavaScript float expression `10 ** x`; everything else is exact `ℚ`
arithmetic, and `Math.round` is Mathlib's `round` (⌊x + 1/2⌋). -/
def calcEloRatingChange (tenPow : ℚ → ℚ) (playerId : String) (ranking : Nat)
    (g : OngoingCardGame) : EloRatingChange :=
  let prevElo := (g.prevEloRatings.find? (fun e => e.playerId = playerId)).getD default
  let n : ℚ := g.prevEloRatings.length
  let totalExpectedScore :=
    ((g.prevEloRatings.filter (fun e => e.playerId ≠ playerId)).map
      (fun e => 1 / (1 + tenPow ((e.rating - prevElo.rating) / 400)))).sum
  let expectedScore := totalExpectedScore / choose2 n
  let actualScore := (n - ranking - 1) / choose2 n
  let newRating := prevElo.rating + 50 * (n - 1) * (actualScore - expectedScore)
  { player :=
      { playerId := playerId,
        username :=
          ((g.players.find? (fun p => p.playerId = prevElo.playerId)).map
            (·.username)).getD "Anonymous" },
    prevElo := prevElo.rating,
    newElo := round newRating }

/-- The second `forEach` of `_calculateNewElos`: players without an
entry yet are appended with ranking `winners.length`; the membership
check runs against the accumulating list. -/
def addNonWinnerElos (tenPow : ℚ → ℚ) (g : OngoingCardGame) :
    List CardGamePlayer → List EloRatingChange → List EloRatingChange
  | [], acc => acc
  | p :: ps, acc =>
    if acc.any (fun e => e.player.playerId = p.playerId) then
      addNonWinnerElos tenPow g ps acc
    else
      addNonWinnerElos tenPow g ps
        (acc ++ [calcEloRatingChange tenPow p.playerId g.winners.length g])

/-- `CardGameArea._calculateNewElos`: one entry per winner in rank
order (the `forEach` over `winners` with its position as the rank), then
one entry per remaining player at rank `winners.length`. -/
def calculateNewElos (tenPow : ℚ → ℚ) (g : OngoingCardGame) : List EloRatingChange :=
  addNonWinnerElos tenPow g g.players
    ((List.range g.winners.length).map fun rankIdx =>
      calcEloRatingChange tenPow
        (g.players.getD (g.winners.getD rankIdx 0) default).playerId rankIdx g)

/-- `CardGameArea._onGameEnd`: store the new elo rating changes on the
game (the match-history write is external persistence). -/
def onGameEnd (tenPow : ℚ → ℚ) (g : OngoingCardGame) : OngoingCardGame :=
  { g with eloRatingChanges := calculateNewElos tenPow g }

/-! ## Starting a game (`CardGameArea.startCardGame`) -/

/-- The data assembled by one successful iteration of the deal loop. -/
structure DealData where
  hands : List (List Card)
  nextIdx : Nat
  discardCard : Card
  playerDirection : Bool
  currentColor : String
  currentPlayerIdx : Nat
  moves : List FullMove
  initialHands : List (List Card)
deriving DecidableEq, Repr

/-- Deal `DEFAULT_HAND_SIZE` consecutive cards off the deck to each
player in join order. -/
def dealHands (players : List CardGamePlayer) (deck : List Card) : List (List Card) :=
  (List.range players.length).map fun i =>
    (deck.drop (DEFAULT_HAND_SIZE * i)).take DEFAULT_HAND_SIZE

/-- One iteration of `startCardGame`'s deal loop on an already-shuffled
deck: deal hands, draw the top discard card, and — when it is not a
wild — pre-apply its effect (reverse flips the starting direction, skip
advances the starting player, draw-two deals player 0 two extra cards
and advances the starting player) and log the `receive_hand` moves.
Returns `none` when the top discard card is a wild, forcing a redo. -/
def dealAttempt (now : Nat) (players : List CardGamePlayer) (deck : List Card) :
    Option DealData :=
  let hands := dealHands players deck
  let nextIdx := DEFAULT_HAND_SIZE * players.length
  let discardCard := deck.getD nextIdx default
  let nextIdx := nextIdx + 1
  if discardCard.isWild then none
  else
    let currentColor := discardCard.color?.getD ""
    let playerDirection := !discardCard.isReverse
    let extraDraws := if discardCard.isDrawTwo then (deck.drop nextIdx).take 2 else []
    let nextIdx := if discardCard.isDrawTwo then nextIdx + 2 else nextIdx
    let hands := if discardCard.isDrawTwo then
        hands.set 0 (hands.getD 0 [] ++ extraDraws)
      else hands
    let currentPlayerIdx : Nat :=
      if discardCard.isSkip || discardCard.isDrawTwo then 1 else 0
    some {
      hands := hands,
      nextIdx := nextIdx,
      discardCard := discardCard,
      playerDirection := playerDirection,
      currentColor := currentColor,
      currentPlayerIdx := currentPlayerIdx,
      moves := players.enum.map fun pr =>
        { playerId := pr.2.playerId, timestamp := now,
          move := BasicMove.receive_hand (hands.getD pr.1 []) },
      initialHands := (List.range players.length).map fun i => hands.getD i [] }

/-- The bounded retry loop of `startCardGame` (`for j in 0..99`),
threading the repeatedly-shuffled deck; `shuffles j` is the permutation
applied by the `j`-th call to `shuffleCards`. -/
def dealLoop (shuffles : Nat → List Card → List Card) (now : Nat)
    (players : List CardGamePlayer) :
    Nat → Nat → List Card → List Card × Option DealData
  | 0, _, deck => (deck, none)
  | fuel + 1, j, deck =>
    let deck' := shuffles j deck
    match dealAttempt now players deck' with
    | some d => (deck', some d)
    | none => dealLoop shuffles now players fuel (j + 1) deck'

/-- `CardGameArea.startCardGame`: find the pending game, check the
player-count bounds, remove it from `nonStartedGames`, build and deal a
deck with up to 100 reshuffle attempts, and either throw
`'Failed to deal cards'` (the pending game stays removed) or append the
new ongoing game. -/
def startCardGame (shuffles : Nat → List Card → List Card) (now : Nat)
    (area : CardGameAreaState) (gameId : String) (color : Option String) :
    CardGameAreaState × Option String :=
  match area.nonStartedGames.findIdx? (fun game => game.id = gameId) with
  | none => (area, some "No game with this ID exists")
  | some cardGameIndex =>
    let cardGame := area.nonStartedGames.getD cardGameIndex default
    if cardGame.players.length < MIN_PLAYERS then
      (area, some "Can not start a game with less than 2 players")
    else if cardGame.players.length > MAX_PLAYERS then
      (area, some "Can not start a game with more than 8 players")
    else
      let area1 := { area with
        nonStartedGames := area.nonStartedGames.eraseIdx cardGameIndex }
      match dealLoop shuffles now cardGame.players 100 0 (genUnoDeck color) with
      | (_, none) => (area1, some "Failed to deal cards")
      | (deckFinal, some d) =>
        ({ area1 with ongoingGames := area1.ongoingGames ++
          [{ id := cardGame.id,
             players := cardGame.players,
             activePlayers := List.range cardGame.players.length,
             spectators := [],
             winners := [],
             hands := d.hands,
             moves := d.moves,
             deck := deckFinal.drop d.nextIdx,
             discardPile := [d.discardCard],
             currentColor := d.currentColor,
             lastDrawPlayed := none,
             currentPlayerIdx := d.currentPlayerIdx,
             playerDirection := d.playerDirection,
             prevEloRatings := [],
             eloRatingChanges := [],
             cardsDrawnDuringGame := [],
             startingTopCardDiscardPile := d.discardCard,
             initialHands := d.initialHands,
             startTime := now }] }, none)

/-! ## C1: deck composition -/

/-- C1 (counterexample): a deck built with the color filter `"red"` has
64 cards, not the 16 the claim states — `genUnoDeck` iterates over all
four entries of `ALL_CARD_COLORS` even when a filter is given, so the
single-color composition is produced four times over. -/
theorem c1_filtered_deck_is_64_not_16 :
    (genUnoDeck (some "red")).length = 64 ∧ (genUnoDeck (some "red")).length ≠ 16 := by
  decide

/-- The 16-card single-color section pushed by one iteration of
`genUnoDeck`'s color loop. -/
def colorSection (col : String) : List Card :=
  [Card.number col 0, Card.number col 1, Card.number col 2, Card.number col 3,
   Card.number col 4, Card.number col 5, Card.number col 6, Card.number col 7,
   Card.number col 8, Card.number col 9,
   Card.draw_two col, Card.reverse col, Card.skip col,
   Card.draw_two col, Card.reverse col, Card.skip col]

/-- With a non-empty color filter, every iteration of the color loop
produces the same 16-card section in the filter color. -/
theorem genUnoDeck_filtered_eq (col : String) (hcol : col ≠ "") :
    genUnoDeck (some col) =
      colorSection col ++ colorSection col ++ colorSection col ++ colorSection col := by
  have h : ∀ c' : String, (if col = "" then c' else col) = col := fun c' => if_neg hcol
  simp only [genUnoDeck, ALL_CARD_COLORS, h]
  simp [colorSection, List.range_succ]

set_option maxHeartbeats 1000000

/-- Number-card counts in a single color section. -/
theorem colorSection_count_number (col : String) (v : Nat) (hv : v < 10) :
    (colorSection col).count (Card.number col v) = 1 := by
  interval_cases v <;> simp [colorSection, List.count_cons, Card.number.injEq]

/-- Draw-two count in a single color section. -/
theorem colorSection_count_draw_two (col : String) :
    (colorSection col).count (Card.draw_two col) = 2 := by
  simp [colorSection, List.count_cons]

/-- Reverse count in a single color section. -/
theorem colorSection_count_reverse (col : String) :
    (colorSection col).count (Card.reverse col) = 2 := by
  simp [colorSection, List.count_cons]

/-- Skip count in a single color section. -/
theorem colorSection_count_skip (col : String) :
    (colorSection col).count (Card.skip col) = 2 := by
  simp [colorSection, List.count_cons]

/-- A color section contains no wild cards. -/
theorem colorSection_no_wild (col : String) :
    ∀ c ∈ colorSection col, c.isWild = false := by
  intro c hc
  fin_cases hc <;> rfl

/-- C1 (amended): without a color filter the deck has exactly 72 cards —
per color 10 number cards valued 0–9 and 2 each of draw-two, reverse and
skip, plus 4 wilds and 4 wild-draw-fours.  With a (non-empty) color
filter the deck has exactly 64 cards, contains no wilds, and holds the
single-color composition four times over: 4 copies of each number value
0–9 and 8 each of draw-two, reverse and skip, all in the filter color. -/
theorem c1_deck_composition (col : String) (hcol : col ≠ "") :
    ((genUnoDeck none).length = 72 ∧
      (∀ c ∈ ALL_CARD_COLORS,
        (∀ v ∈ List.range 10, (genUnoDeck none).count (Card.number c v) = 1) ∧
        (genUnoDeck none).count (Card.draw_two c) = 2 ∧
        (genUnoDeck none).count (Card.reverse c) = 2 ∧
        (genUnoDeck none).count (Card.skip c) = 2) ∧
      (genUnoDeck none).count Card.wild = 4 ∧
      (genUnoDeck none).count Card.wild_draw_four = 4) ∧
    ((genUnoDeck (some col)).length = 64 ∧
      (∀ c ∈ genUnoDeck (some col), c.isWild = false) ∧
      (∀ v ∈ List.range 10, (genUnoDeck (some col)).count (Card.number col v) = 4) ∧
      (genUnoDeck (some col)).count (Card.draw_two col) = 8 ∧
      (genUnoDeck (some col)).count (Card.reverse col) = 8 ∧
      (genUnoDeck (some col)).count (Card.skip col) = 8) := by
  rw [genUnoDeck_filtered_eq col hcol]
  refine ⟨⟨by decide, by decide, by decide, by decide⟩,
    by simp [colorSection], ?_, ?_, ?_, ?_, ?_⟩
  · intro c hc
    simp only [List.mem_append] at hc
    rcases hc with ((hc | hc) | hc) | hc <;> exact colorSection_no_wild col c hc
  · intro v hv
    simp only [List.mem_range] at hv
    simp [List.count_append, colorSection_count_number col v hv]
  all_goals
    simp [List.count_append, colorSection_count_draw_two,
      colorSection_count_reverse, colorSection_count_skip]

/-- C1 (witness): the amended composition theorem applied to the filter
color `"red"`. -/
theorem c1_deck_composition_witness :
    ("red" ≠ "") ∧ (genUnoDeck (some "red")).length = 64 :=
  ⟨by decide, (c1_deck_composition "red" (by decide)).2.1⟩

/-! ## C4: turn advancement lands on an active player -/

/-- A step from an in-range index stays in range. -/
theorem advanceStep_lt (direction : Bool) (n idx : Nat) (h : idx < n) :
    advanceStep direction n idx < n := by
  unfold advanceStep
  split <;> split <;> omega

/-- The ascending step is `+1` modulo the player count. -/
theorem advanceStep_asc (n idx : Nat) (h : idx < n) :
    advanceStep true n idx = (idx + 1) % n := by
  unfold advanceStep
  simp only [if_true]
  by_cases h1 : idx + 1 = n
  · simp [h1, Nat.mod_self]
  · rw [if_neg h1, Nat.mod_eq_of_lt (by omega)]

/-- Iterating the ascending step adds modulo the player count. -/
theorem advanceStep_asc_iterate (n idx : Nat) (h : idx < n) (k : Nat) :
    (advanceStep true n)^[k] idx = (idx + k) % n := by
  induction k with
  | zero => simp [Nat.mod_eq_of_lt h]
  | succ k ih =>
    rw [Function.iterate_succ_apply', ih,
      advanceStep_asc n _ (Nat.mod_lt _ (by omega)), Nat.mod_add_mod]
    ring_nf

/-- The descending step is the ascending step conjugated by the mirror
`i ↦ n - 1 - i`. -/
theorem advanceStep_desc_conj (n idx : Nat) (h : idx < n) :
    advanceStep false n idx = n - 1 - advanceStep true n (n - 1 - idx) := by
  unfold advanceStep
  simp only [Bool.false_eq_true, if_false, if_true]
  split <;> split <;> omega

/-- Iterating the descending step mirrors iterating the ascending one. -/
theorem advanceStep_desc_iterate (n idx : Nat) (h : idx < n) (k : Nat) :
    (advanceStep false n)^[k] idx = n - 1 - (advanceStep true n)^[k] (n - 1 - idx) := by
  induction k with
  | zero => simp; omega
  | succ k ih =>
    have hy : (advanceStep true n)^[k] (n - 1 - idx) < n := by
      rw [advanceStep_asc_iterate n _ (by omega) k]
      exact Nat.mod_lt _ (by omega)
    rw [Function.iterate_succ_apply', ih, advanceStep_desc_conj n _ (by omega),
      Function.iterate_succ_apply']
    congr 2
    omega

/-- From any in-range start, the ascending step reaches any in-range
target within `n` steps (taking at least one step). -/
theorem advanceStep_asc_hits (n idx a : Nat) (h : idx < n) (ha : a < n) :
    ∃ k, 1 ≤ k ∧ k ≤ n ∧ (advanceStep true n)^[k] idx = a := by
  by_cases hia : idx < a
  · refine ⟨a - idx, by omega, by omega, ?_⟩
    rw [advanceStep_asc_iterate n idx h, show idx + (a - idx) = a by omega,
      Nat.mod_eq_of_lt ha]
  · refine ⟨a + n - idx, by omega, by omega, ?_⟩
    rw [advanceStep_asc_iterate n idx h, show idx + (a + n - idx) = a + n by omega,
      Nat.add_mod_right, Nat.mod_eq_of_lt ha]

/-- From any in-range start, one step of either direction reaches any
in-range target within `n` steps (taking at least one step). -/
theorem advanceStep_hits (direction : Bool) (n idx a : Nat) (h : idx < n) (ha : a < n) :
    ∃ k, 1 ≤ k ∧ k ≤ n ∧ (advanceStep direction n)^[k] idx = a := by
  cases direction
  · obtain ⟨k, hk1, hkn, hk⟩ := advanceStep_asc_hits n (n - 1 - idx) (n - 1 - a)
      (by omega) (by omega)
    exact ⟨k, hk1, hkn, by rw [advanceStep_desc_iterate n idx h k, hk]; omega⟩
  · exact advanceStep_asc_hits n idx a h ha

/-- If some iterate within the fuel lands in `active`, the do-while loop
returns a member of `active`. -/
theorem advanceLoop_mem (active : List Nat) (direction : Bool) (n : Nat) :
    ∀ fuel idx k, 1 ≤ k → k ≤ fuel →
      (advanceStep direction n)^[k] idx ∈ active →
      advanceLoop active direction n fuel idx ∈ active := by
  intro fuel
  induction fuel with
  | zero => omega
  | succ fuel ih =>
    intro idx k hk1 hkf hk
    rw [advanceLoop]
    by_cases hmem : advanceStep direction n idx ∈ active
    · simp [hmem]
    · rw [if_neg hmem]
      obtain ⟨k', rfl⟩ : ∃ k', k = k' + 1 := ⟨k - 1, by omega⟩
      rw [Function.iterate_succ_apply] at hk
      rcases Nat.eq_zero_or_pos k' with rfl | hk'
      · simp only [Function.iterate_zero, id_eq] at hk
        exact absurd hk hmem
      · exact ih _ k' hk' (by omega) hk

/-- The result of the do-while loop is some iterate of the step
function, reached after at least one step. -/
theorem advanceLoop_eq_iterate (active : List Nat) (direction : Bool) (n : Nat) :
    ∀ fuel idx, 1 ≤ fuel →
      ∃ k, 1 ≤ k ∧ k ≤ fuel ∧
        advanceLoop active direction n fuel idx = (advanceStep direction n)^[k] idx := by
  intro fuel
  induction fuel with
  | zero => omega
  | succ fuel ih =>
    intro idx _
    rw [advanceLoop]
    by_cases hmem : advanceStep direction n idx ∈ active
    · exact ⟨1, le_refl 1, by omega, by simp [hmem]⟩
    · rw [if_neg hmem]
      rcases Nat.eq_zero_or_pos fuel with rfl | hf
      · exact ⟨1, le_refl 1, by omega, by simp [advanceLoop]⟩
      · obtain ⟨k, hk1, hkf, hk⟩ := ih (advanceStep direction n idx) hf
        exact ⟨k + 1, by omega, by omega, by rw [hk, Function.iterate_succ_apply]⟩

/-- Once some iterate within the fuel lands in `active`, adding more
fuel does not change the loop's result: the loop terminates. -/
theorem advanceLoop_fuel_stable (active : List Nat) (direction : Bool) (n : Nat) :
    ∀ fuel idx k, 1 ≤ k → k ≤ fuel →
      (advanceStep direction n)^[k] idx ∈ active →
      ∀ extra, advanceLoop active direction n (fuel + extra) idx =
        advanceLoop active direction n fuel idx := by
  intro fuel
  induction fuel with
  | zero => omega
  | succ fuel ih =>
    intro idx k hk1 hkf hk extra
    rw [show fuel + 1 + extra = (fuel + extra) + 1 by omega, advanceLoop, advanceLoop]
    by_cases hmem : advanceStep direction n idx ∈ active
    · simp [hmem]
    · rw [if_neg hmem, if_neg hmem]
      obtain ⟨k', rfl⟩ : ∃ k', k = k' + 1 := ⟨k - 1, by omega⟩
      rw [Function.iterate_succ_apply] at hk
      rcases Nat.eq_zero_or_pos k' with rfl | hk'
      · simp only [Function.iterate_zero, id_eq] at hk
        exact absurd hk hmem
      · exact ih _ k' hk' (by omega) hk extra

/-- C4: when `activePlayers` is empty, `advanceMove` is a no-op;
otherwise — for any starting `currentPlayerIdx`, member of
`activePlayers` or not — it terminates (the do-while loop is insensitive
to any fuel beyond `players.length`) and leaves `currentPlayerIdx` on a
member of `activePlayers`, reached by iterating the single step that
adds 1 with wraparound to 0 when `playerDirection` is true and subtracts
1 with wraparound to the last index when it is false. -/
theorem c4_advanceMove_terminates_on_active (g : OngoingCardGame)
    (hA : ∀ i ∈ g.activePlayers, i < g.players.length)
    (hidx : g.currentPlayerIdx < g.players.length) :
    (g.activePlayers = [] → advanceMove g = g) ∧
    (g.activePlayers ≠ [] →
      (advanceMove g).currentPlayerIdx ∈ g.activePlayers ∧
      (∃ k, 1 ≤ k ∧ k ≤ g.players.length ∧
        (advanceMove g).currentPlayerIdx =
          (advanceStep g.playerDirection g.players.length)^[k] g.currentPlayerIdx) ∧
      (∀ fuel, g.players.length ≤ fuel →
        advanceLoop g.activePlayers g.playerDirection g.players.length fuel
          g.currentPlayerIdx =
        advanceLoop g.activePlayers g.playerDirection g.players.length
          g.players.length g.currentPlayerIdx)) := by
  constructor
  · intro he
    unfold advanceMove
    rw [if_pos he]
  · intro hne
    obtain ⟨a, ha⟩ := List.exists_mem_of_ne_nil _ hne
    have han : a < g.players.length := hA a ha
    obtain ⟨k, hk1, hkn, hk⟩ := advanceStep_hits g.playerDirection g.players.length
      g.currentPlayerIdx a hidx han
    have hkmem : (advanceStep g.playerDirection g.players.length)^[k]
        g.currentPlayerIdx ∈ g.activePlayers := hk ▸ ha
    have hadv : advanceMove g = { g with currentPlayerIdx :=
        (advanceLoop g.activePlayers g.playerDirection g.players.length
          g.players.length g.currentPlayerIdx) } := by
      unfold advanceMove
      rw [if_neg hne]
    refine ⟨?_, ?_, ?_⟩
    · rw [hadv]
      exact advanceLoop_mem _ _ _ g.players.length g.currentPlayerIdx k hk1 hkn hkmem
    · obtain ⟨k', hk'1, hk'n, hk'⟩ := advanceLoop_eq_iterate g.activePlayers
        g.playerDirection g.players.length g.players.length g.currentPlayerIdx
        (by omega)
      exact ⟨k', hk'1, hk'n, by rw [hadv]; exact hk'⟩
    · intro fuel hfuel
      rw [show fuel = g.players.length + (fuel - g.players.length) by omega]
      exact advanceLoop_fuel_stable _ _ _ g.players.length g.currentPlayerIdx k
        hk1 hkn hkmem _

/-- A concrete three-player game (player 1 has already won) used to
instantiate hypothesis-bearing theorems. -/
def sampleGame : OngoingCardGame where
  id := "game0"
  players := [⟨"p0", "P0"⟩, ⟨"p1", "P1"⟩, ⟨"p2", "P2"⟩]
  activePlayers := [0, 2]
  spectators := []
  winners := [1]
  hands := [[Card.number "red" 1], [], [Card.number "red" 2]]
  moves := []
  deck := [Card.number "blue" 3, Card.number "green" 4]
  discardPile := [Card.number "red" 5]
  currentColor := "red"
  lastDrawPlayed := none
  currentPlayerIdx := 0
  playerDirection := true
  prevEloRatings := []
  eloRatingChanges := []
  cardsDrawnDuringGame := []
  startingTopCardDiscardPile := Card.number "red" 5
  initialHands := []
  startTime := 0

/-- C4 (witness): the turn-advancement theorem applied to `sampleGame`
(player 1 has quit, so index 1 is skipped over). -/
theorem c4_witness :
    (∀ i ∈ sampleGame.activePlayers, i < sampleGame.players.length) ∧
    sampleGame.currentPlayerIdx < sampleGame.players.length ∧
    sampleGame.activePlayers ≠ [] ∧
    (advanceMove sampleGame).currentPlayerIdx ∈ sampleGame.activePlayers :=
  ⟨by decide, by decide, by decide,
    ((c4_advanceMove_terminates_on_active sampleGame (by decide) (by decide)).2
      (by decide)).1⟩

/-! ## C3: play-move validation failures are atomic -/

/-- C3: on a play move, each validation failure — absent card index,
pending draw obligation, card index not resolving to a card in the
current player's hand, wild played without a replacement color, non-wild
card whose color differs from `currentColor` — makes `playMove` throw
and leave the game state exactly as it was (no partial mutation). -/
theorem c3_playMove_validation_atomic (sh : List Card → List Card)
    (cb : OngoingCardGame → OngoingCardGame) (g : OngoingCardGame)
    (m : PlayableMove) (hm : m.type = false) :
    (m.card = none →
      playMove sh cb g m = (g, some "Must specify the card being played")) ∧
    (∀ ci, m.card = some ci → g.lastDrawPlayed ≠ none →
      playMove sh cb g m = (g, some "Card game requires that draw be played")) ∧
    (∀ ci, m.card = some ci → g.lastDrawPlayed = none →
      (g.hands.getD g.currentPlayerIdx []).get? ci = none →
      (playMove sh cb g m).2.isSome = true ∧ (playMove sh cb g m).1 = g) ∧
    (∀ ci c, m.card = some ci → g.lastDrawPlayed = none →
      (g.hands.getD g.currentPlayerIdx []).get? ci = some c → c.isWild = true →
      m.color = none →
      playMove sh cb g m =
        (g, some "Tried to play wild card without specifying color")) ∧
    (∀ ci c, m.card = some ci → g.lastDrawPlayed = none →
      (g.hands.getD g.currentPlayerIdx []).get? ci = some c → c.isWild = false →
      c.color?.getD "" ≠ g.currentColor →
      playMove sh cb g m =
        (g, some "Tried to play card with different color than current color")) := by
  refine ⟨?_, ?_, ?_, ?_, ?_⟩
  · intro hcard
    simp [playMove, hm, hcard]
  · intro ci hcard hld
    simp [playMove, hm, hcard, hld]
  · intro ci hcard hld hget
    rw [List.get?_eq_getElem?, List.getD_eq_getElem?_getD] at hget
    simp [playMove, hm, hcard, hld, hget]
  · intro ci c hcard hld hget hwild hcol
    rw [List.get?_eq_getElem?, List.getD_eq_getElem?_getD] at hget
    simp [playMove, hm, hcard, hld, hget, hwild, hcol]
  · intro ci c hcard hld hget hwild hcol
    rw [List.get?_eq_getElem?, List.getD_eq_getElem?_getD] at hget
    simp [playMove, hm, hcard, hld, hget, hwild, hcol]

/-- C3 (witness): the validation theorem applied to `sampleGame` and a
play move with no card index. -/
theorem c3_witness :
    (PlayableMove.mk false none none).type = false ∧
    (PlayableMove.mk false none none).card = none ∧
    playMove id id sampleGame (PlayableMove.mk false none none) =
      (sampleGame, some "Must specify the card being played") :=
  ⟨rfl, rfl,
    (c3_playMove_validation_atomic id id sampleGame _ rfl).1 rfl⟩

/-! ## C5: reverse with exactly two active players acts as a skip -/

/-- `advanceMove` changes only `currentPlayerIdx`: the direction flag is
untouched. -/
theorem advanceMove_playerDirection (g : OngoingCardGame) :
    (advanceMove g).playerDirection = g.playerDirection := by
  unfold advanceMove
  split <;> rfl

/-- `playCardCore` never touches `playerDirection` (given that the
end-of-game callback does not either). -/
theorem playCardCore_playerDirection (cb : OngoingCardGame → OngoingCardGame)
    (hcb : ∀ h, (cb h).playerDirection = h.playerDirection)
    (g : OngoingCardGame) (activeIdx : Option Nat) (ci : Nat) (curCard : Card)
    (newColor : String) :
    (playCardCore cb g activeIdx ci curCard newColor).playerDirection =
      g.playerDirection := by
  simp only [playCardCore, updateIfGameEnded]
  split
  · split
    · rw [hcb]
    · rfl
  · rfl

/-- C5: a valid play of a reverse card runs without error; writing `mid`
for the state right after the card moves to the discard pile (win
handling included), when exactly 2 active players remain the turn is
advanced twice (the skip-effect advance plus the move's own final
advance) and `playerDirection` is unchanged, while with more than 2
active players remaining `playerDirection` is flipped and the turn is
advanced once. -/
theorem c5_reverse_two_players_is_skip (sh : List Card → List Card)
    (cb : OngoingCardGame → OngoingCardGame)
    (hcb : ∀ h, (cb h).playerDirection = h.playerDirection)
    (g : OngoingCardGame) (m : PlayableMove) (ci : Nat) (col : String)
    (hm : m.type = false) (hc : m.card = some ci)
    (hld : g.lastDrawPlayed = none)
    (hget : (g.hands.getD g.currentPlayerIdx []).get? ci = some (Card.reverse col))
    (hcol : col = g.currentColor) :
    (playMove sh cb g m).2 = none ∧
    ((playCardCore cb g (g.activePlayers.findIdx? (· = g.currentPlayerIdx)) ci
        (Card.reverse col) g.currentColor).activePlayers.length = 2 →
      (playMove sh cb g m).1 =
        advanceMove (advanceMove (playCardCore cb g
          (g.activePlayers.findIdx? (· = g.currentPlayerIdx)) ci
          (Card.reverse col) g.currentColor)) ∧
      (playMove sh cb g m).1.playerDirection = g.playerDirection) ∧
    (2 < (playCardCore cb g (g.activePlayers.findIdx? (· = g.currentPlayerIdx)) ci
        (Card.reverse col) g.currentColor).activePlayers.length →
      (playMove sh cb g m).1 =
        advanceMove { (playCardCore cb g
          (g.activePlayers.findIdx? (· = g.currentPlayerIdx)) ci
          (Card.reverse col) g.currentColor) with
            playerDirection := !(playCardCore cb g
              (g.activePlayers.findIdx? (· = g.currentPlayerIdx)) ci
              (Card.reverse col) g.currentColor).playerDirection } ∧
      (playMove sh cb g m).1.playerDirection = !g.playerDirection) := by
  rw [List.get?_eq_getElem?, List.getD_eq_getElem?_getD] at hget
  have hplay : playMove sh cb g m =
      (applyCardEffects (Card.reverse col) (playCardCore cb g
        (g.activePlayers.findIdx? (· = g.currentPlayerIdx)) ci
        (Card.reverse col) g.currentColor), none) := by
    simp [playMove, hm, hc, hld, hget, Card.isWild, Card.color?, hcol]
  set mid := playCardCore cb g
    (g.activePlayers.findIdx? (· = g.currentPlayerIdx)) ci
    (Card.reverse col) g.currentColor with hmid
  have hmiddir : mid.playerDirection = g.playerDirection :=
    playCardCore_playerDirection cb hcb g _ ci _ _
  refine ⟨by rw [hplay], ?_, ?_⟩
  · intro h2
    have heff : applyCardEffects (Card.reverse col) mid =
        advanceMove (advanceMove mid) := by
      unfold applyCardEffects
      simp [Card.isReverse, Card.isSkip, Card.isDrawTwo, Card.isWildDrawFour, h2]
    refine ⟨by rw [hplay, heff], ?_⟩
    rw [hplay, heff]
    simp only [advanceMove_playerDirection]
    exact hmiddir
  · intro h2
    have heff : applyCardEffects (Card.reverse col) mid =
        advanceMove { mid with playerDirection := !mid.playerDirection } := by
      unfold applyCardEffects
      simp [Card.isReverse, Card.isSkip, Card.isDrawTwo, Card.isWildDrawFour,
        Nat.ne_of_gt h2]
    refine ⟨by rw [hplay, heff], ?_⟩
    rw [hplay, heff]
    simp only [advanceMove_playerDirection]
    rw [hmiddir]

/-- A concrete two-player game whose current player holds a reverse card
matching the current color. -/
def revGame : OngoingCardGame where
  id := "game1"
  players := [⟨"p0", "P0"⟩, ⟨"p1", "P1"⟩]
  activePlayers := [0, 1]
  spectators := []
  winners := []
  hands := [[Card.reverse "red", Card.number "red" 1], [Card.number "blue" 2]]
  moves := []
  deck := [Card.number "green" 7]
  discardPile := [Card.number "red" 5]
  currentColor := "red"
  lastDrawPlayed := none
  currentPlayerIdx := 0
  playerDirection := true
  prevEloRatings := []
  eloRatingChanges := []
  cardsDrawnDuringGame := []
  startingTopCardDiscardPile := Card.number "red" 5
  initialHands := []
  startTime := 0

/-- C5 (witness): playing the reverse in the two-player `revGame` leaves
the direction flag alone. -/
theorem c5_witness :
    (playMove id id revGame (PlayableMove.mk false (some 0) none)).2 = none ∧
    (playMove id id revGame
      (PlayableMove.mk false (some 0) none)).1.playerDirection =
        revGame.playerDirection := by
  have h := c5_reverse_two_players_is_skip id id (fun _ => rfl) revGame
    (PlayableMove.mk false (some 0) none) 0 "red" rfl rfl rfl (by decide) rfl
  exact ⟨h.1, (h.2.1 (by decide)).2⟩

/-! ## C9: drawing from an empty deck -/

/-- A concrete game whose deck and discard pile are both empty. -/
def drainedGame : OngoingCardGame where
  id := "game2"
  players := [⟨"p0", "P0"⟩, ⟨"p1", "P1"⟩]
  activePlayers := [0, 1]
  spectators := []
  winners := []
  hands := [[Card.number "red" 1], [Card.number "blue" 2]]
  moves := []
  deck := []
  discardPile := []
  currentColor := "red"
  lastDrawPlayed := none
  currentPlayerIdx := 0
  playerDirection := true
  prevEloRatings := []
  eloRatingChanges := []
  cardsDrawnDuringGame := []
  startingTopCardDiscardPile := Card.number "red" 5
  initialHands := []
  startTime := 0

/-- C9 (counterexample): with an empty deck and an empty discard pile —
a case the claim's "at most one card" includes — `drawCard` is not a
no-op: it throws `'Discard pile is empty'`. -/
theorem c9_empty_discard_pile_throws :
    drainedGame.deck = [] ∧ drainedGame.discardPile.length ≤ 1 ∧
    (drawCard id drainedGame).2 ≠ none := by decide

/-- C9 (amended): with an empty deck, `drawCard` is a complete no-op
(no error, no state change at all) exactly when the discard pile has
exactly one card; with an empty discard pile it throws
`'Discard pile is empty'` (leaving the state unchanged); and with more
than one discard card it reshuffles all but the top discard card into a
new deck, keeps exactly the top card in the discard pile, and then the
draw proceeds from the new deck into the current player's hand and the
drawn-card audit log. -/
theorem c9_drawCard_empty_deck (sh : List Card → List Card)
    (hsh : ∀ l : List Card, (sh l).Perm l) (g : OngoingCardGame)
    (hd : g.deck = []) :
    (g.discardPile.length = 1 → drawCard sh g = (g, none)) ∧
    (g.discardPile = [] → drawCard sh g = (g, some "Discard pile is empty")) ∧
    (1 < g.discardPile.length →
      (drawCard sh g).2 = none ∧
      (∃ top, g.discardPile.getLast? = some top ∧
        (drawCard sh g).1.discardPile = [top]) ∧
      (drawCard sh g).1.deck = (sh g.discardPile.dropLast).drop 1 ∧
      (drawCard sh g).1.hands = g.hands.set g.currentPlayerIdx
        (g.hands.getD g.currentPlayerIdx [] ++ [(sh g.discardPile.dropLast).headI]) ∧
      (drawCard sh g).1.cardsDrawnDuringGame =
        g.cardsDrawnDuringGame ++ [(sh g.discardPile.dropLast).headI]) := by
  have hnil : sh [] = [] := (hsh []).eq_nil
  obtain ⟨gid, pls, ap, sp, w, hs, mv, dk, dp, cc, ldp, cpi, pd, per, erc, cd, tc,
    ihs, stt⟩ := g
  simp only at hd
  subst hd
  refine ⟨?_, ?_, ?_⟩
  · intro h1
    simp only at h1
    rw [List.length_eq_one] at h1
    obtain ⟨c, hc⟩ := h1
    subst hc
    simp [drawCard, hnil]
  · intro h0
    simp only at h0
    subst h0
    simp [drawCard, hnil]
  · intro h1
    simp only at h1
    have hne : dp ≠ [] := by
      intro h
      rw [h] at h1
      simp at h1
    obtain ⟨top, htop⟩ := Option.isSome_iff_exists.mp
      (List.getLast?_isSome.mpr hne)
    have hlen : (sh dp.dropLast).length = dp.length - 1 := by
      rw [(hsh _).length_eq, List.length_dropLast]
    have hne2 : ¬((sh dp.dropLast).length = 0) := by omega
    refine ⟨?_, ⟨top, by simpa using htop, ?_⟩, ?_, ?_, ?_⟩ <;>
      simp [drawCard, htop, hne2]

/-- A concrete game with an empty deck and a one-card discard pile. -/
def oneDiscardGame : OngoingCardGame :=
  { drainedGame with discardPile := [Card.number "red" 5] }

/-- C9 (witness): the amended theorem applied to `oneDiscardGame`: the
draw is a complete no-op. -/
theorem c9_witness :
    oneDiscardGame.deck = [] ∧ oneDiscardGame.discardPile.length = 1 ∧
    drawCard id oneDiscardGame = (oneDiscardGame, none) :=
  ⟨rfl, rfl,
    (c9_drawCard_empty_deck id (fun _ => List.Perm.refl _) oneDiscardGame rfl).1 rfl⟩

/-! ## C10: quitting changes no card-related or rule-related state -/

/-- `advanceMove` leaves every field other than `currentPlayerIdx`
unchanged. -/
theorem advanceMove_frame (g : OngoingCardGame) :
    (advanceMove g).hands = g.hands ∧ (advanceMove g).deck = g.deck ∧
    (advanceMove g).discardPile = g.discardPile ∧
    (advanceMove g).currentColor = g.currentColor ∧
    (advanceMove g).lastDrawPlayed = g.lastDrawPlayed ∧
    (advanceMove g).players = g.players ∧
    (advanceMove g).playerDirection = g.playerDirection ∧
    (advanceMove g).activePlayers = g.activePlayers ∧
    (advanceMove g).winners = g.winners := by
  unfold advanceMove
  split <;> simp

/-- `updateIfGameEnded` leaves the card-related and rule-related fields
unchanged, provided the callback does. -/
theorem updateIfGameEnded_frame (cb : OngoingCardGame → OngoingCardGame)
    (hcb : ∀ h, (cb h).hands = h.hands ∧ (cb h).deck = h.deck ∧
      (cb h).discardPile = h.discardPile ∧ (cb h).currentColor = h.currentColor ∧
      (cb h).lastDrawPlayed = h.lastDrawPlayed ∧ (cb h).players = h.players ∧
      (cb h).playerDirection = h.playerDirection)
    (g : OngoingCardGame) :
    (updateIfGameEnded cb g).hands = g.hands ∧
    (updateIfGameEnded cb g).deck = g.deck ∧
    (updateIfGameEnded cb g).discardPile = g.discardPile ∧
    (updateIfGameEnded cb g).currentColor = g.currentColor ∧
    (updateIfGameEnded cb g).lastDrawPlayed = g.lastDrawPlayed ∧
    (updateIfGameEnded cb g).players = g.players ∧
    (updateIfGameEnded cb g).playerDirection = g.playerDirection := by
  unfold updateIfGameEnded
  split
  · obtain ⟨e1, e2, e3, e4, e5, e6, e7⟩ := hcb { g with
      winners := g.winners ++ [g.activePlayers.headI], activePlayers := [] }
    exact ⟨e1, e2, e3, e4, e5, e6, e7⟩
  · exact ⟨rfl, rfl, rfl, rfl, rfl, rfl, rfl⟩

/-- A successful `quitCardGame` leaves hands, deck, discard pile,
`currentColor`, `lastDrawPlayed`, the player list and `playerDirection`
unchanged, provided the end-of-game callback preserves those fields. -/
theorem quitCardGame_frame (cb : OngoingCardGame → OngoingCardGame)
    (hcb : ∀ h, (cb h).hands = h.hands ∧ (cb h).deck = h.deck ∧
      (cb h).discardPile = h.discardPile ∧ (cb h).currentColor = h.currentColor ∧
      (cb h).lastDrawPlayed = h.lastDrawPlayed ∧ (cb h).players = h.players ∧
      (cb h).playerDirection = h.playerDirection)
    (now : Nat) (g : OngoingCardGame) (pid : Option String)
    (hok : (quitCardGame cb now g pid).2 = none) :
    (quitCardGame cb now g pid).1.hands = g.hands ∧
    (quitCardGame cb now g pid).1.deck = g.deck ∧
    (quitCardGame cb now g pid).1.discardPile = g.discardPile ∧
    (quitCardGame cb now g pid).1.currentColor = g.currentColor ∧
    (quitCardGame cb now g pid).1.lastDrawPlayed = g.lastDrawPlayed ∧
    (quitCardGame cb now g pid).1.players = g.players ∧
    (quitCardGame cb now g pid).1.playerDirection = g.playerDirection := by
  rcases hp : g.players.findIdx? (fun p => pid = some p.playerId) with _ | playerIdx
  · rw [quitCardGame.eq_def, hp] at hok
    simp at hok
  rcases ha : g.activePlayers.findIdx? (· = playerIdx) with _ | activeIdx
  · simp only [quitCardGame, hp, ha] at hok
    simp at hok
  have hq : quitCardGame cb now g pid =
      (let g2 := updateIfGameEnded cb { g with
        activePlayers := g.activePlayers.eraseIdx activeIdx,
        moves := g.moves ++
          [{ playerId := (g.players.getD playerIdx default).playerId,
             timestamp := now, move := BasicMove.quit }] }
       (if playerIdx = g2.currentPlayerIdx then advanceMove g2 else g2, none)) := by
    simp only [quitCardGame, hp, ha]
  rw [hq]
  obtain ⟨e1, e2, e3, e4, e5, e6, e7⟩ := updateIfGameEnded_frame cb hcb { g with
    activePlayers := g.activePlayers.eraseIdx activeIdx,
    moves := g.moves ++
      [{ playerId := (g.players.getD playerIdx default).playerId,
         timestamp := now, move := BasicMove.quit }] }
  obtain ⟨a1, a2, a3, a4, a5, a6, a7, _, _⟩ :=
    advanceMove_frame (updateIfGameEnded cb { g with
      activePlayers := g.activePlayers.eraseIdx activeIdx,
      moves := g.moves ++
        [{ playerId := (g.players.getD playerIdx default).playerId,
           timestamp := now, move := BasicMove.quit }] })
  dsimp only
  split
  · exact ⟨a1.trans e1, a2.trans e2, a3.trans e3, a4.trans e4, a5.trans e5,
      a6.trans e6, a7.trans e7⟩
  · exact ⟨e1, e2, e3, e4, e5, e6, e7⟩

/-- C10: a successful quit leaves hands (including the quitter's own),
deck, discard pile, `currentColor`, `lastDrawPlayed`, the player list
and `playerDirection` all unchanged — the quitter's cards are not
returned anywhere and a pending draw obligation survives for the next
player — provided the end-of-game callback also preserves those
fields (as the real one, which only writes `eloRatingChanges`, does). -/
theorem c10_quit_frame (cb : OngoingCardGame → OngoingCardGame)
    (hcb : ∀ h, (cb h).hands = h.hands ∧ (cb h).deck = h.deck ∧
      (cb h).discardPile = h.discardPile ∧ (cb h).currentColor = h.currentColor ∧
      (cb h).lastDrawPlayed = h.lastDrawPlayed ∧ (cb h).players = h.players ∧
      (cb h).playerDirection = h.playerDirection)
    (now : Nat) (g : OngoingCardGame) (pid : Option String)
    (hok : (quitCardGame cb now g pid).2 = none) :
    (quitCardGame cb now g pid).1.hands = g.hands ∧
    (quitCardGame cb now g pid).1.deck = g.deck ∧
    (quitCardGame cb now g pid).1.discardPile = g.discardPile ∧
    (quitCardGame cb now g pid).1.currentColor = g.currentColor ∧
    (quitCardGame cb now g pid).1.lastDrawPlayed = g.lastDrawPlayed ∧
    (quitCardGame cb now g pid).1.players = g.players ∧
    (quitCardGame cb now g pid).1.playerDirection = g.playerDirection :=
  quitCardGame_frame cb hcb now g pid hok

/-- C10 (witness): the frame theorem applied to `sampleGame` with player
`p0` quitting (the identity callback trivially preserves the fields). -/
theorem c10_witness :
    (quitCardGame id 5 sampleGame (some "p0")).2 = none ∧
    (quitCardGame id 5 sampleGame (some "p0")).1.hands = sampleGame.hands ∧
    (quitCardGame id 5 sampleGame (some "p0")).1.deck = sampleGame.deck :=
  ⟨by decide,
    (c10_quit_frame id (fun _ => ⟨rfl, rfl, rfl, rfl, rfl, rfl, rfl⟩) 5 sampleGame
      (some "p0") (by decide)).1,
    (c10_quit_frame id (fun _ => ⟨rfl, rfl, rfl, rfl, rfl, rfl, rfl⟩) 5 sampleGame
      (some "p0") (by decide)).2.1⟩

/-! ## Step relation over successful game operations (for C6 and C7) -/

/-- Total number of cards held by the deck, the discard pile, and all
hands together. -/
def totalCards (g : OngoingCardGame) : Nat :=
  g.deck.length + g.discardPile.length + (g.hands.map List.length).sum

instance : Inhabited OngoingCardGame :=
  ⟨{ id := "", players := [], activePlayers := [], spectators := [], winners := [],
     hands := [], moves := [], deck := [], discardPile := [], currentColor := "",
     lastDrawPlayed := none, currentPlayerIdx := 0, playerDirection := true,
     prevEloRatings := [], eloRatingChanges := [], cardsDrawnDuringGame := [],
     startingTopCardDiscardPile := Card.wild, initialHands := [], startTime := 0 }⟩

/-- `_onGameEnd` writes only `eloRatingChanges`. -/
theorem onGameEnd_frame (tp : ℚ → ℚ) (h : OngoingCardGame) :
    (onGameEnd tp h).hands = h.hands ∧ (onGameEnd tp h).deck = h.deck ∧
    (onGameEnd tp h).discardPile = h.discardPile ∧
    (onGameEnd tp h).currentColor = h.currentColor ∧
    (onGameEnd tp h).lastDrawPlayed = h.lastDrawPlayed ∧
    (onGameEnd tp h).players = h.players ∧
    (onGameEnd tp h).playerDirection = h.playerDirection ∧
    (onGameEnd tp h).activePlayers = h.activePlayers ∧
    (onGameEnd tp h).winners = h.winners :=
  ⟨rfl, rfl, rfl, rfl, rfl, rfl, rfl, rfl, rfl⟩

/-- `drawCard` never touches active players, winners, the current player
pointer, the number of hands, the draw obligation, or the player list. -/
theorem drawCard_misc (sh : List Card → List Card) (g : OngoingCardGame) :
    (drawCard sh g).1.activePlayers = g.activePlayers ∧
    (drawCard sh g).1.winners = g.winners ∧
    (drawCard sh g).1.currentPlayerIdx = g.currentPlayerIdx ∧
    (drawCard sh g).1.hands.length = g.hands.length ∧
    (drawCard sh g).1.players = g.players := by
  unfold drawCard
  dsimp only
  split
  · next g1 e heq =>
      split at heq
      · split at heq
        · injection heq with h1 h2
          subst h1
          simp
        · simp at heq
      · simp at heq
  · next g1 heq =>
      split at heq
      · split at heq
        · simp at heq
        · injection heq with h1 h2
          subst h1
          split <;> simp
      · injection heq with h1 h2
        subst h1
        split <;> simp

/-- Iterated draws have the same frame as a single draw. -/
theorem drawCards_misc (sh : List Card → List Card) (n : Nat) (g : OngoingCardGame) :
    (drawCards sh n g).1.activePlayers = g.activePlayers ∧
    (drawCards sh n g).1.winners = g.winners ∧
    (drawCards sh n g).1.currentPlayerIdx = g.currentPlayerIdx ∧
    (drawCards sh n g).1.hands.length = g.hands.length ∧
    (drawCards sh n g).1.players = g.players := by
  induction n generalizing g with
  | zero => exact ⟨rfl, rfl, rfl, rfl, rfl⟩
  | succ n ih =>
    rw [drawCards]
    rcases hdc : drawCard sh g with ⟨g1, e⟩
    obtain ⟨d1, d2, d3, d4, d5⟩ := drawCard_misc sh g
    rw [hdc] at d1 d2 d3 d4 d5
    dsimp only at d1 d2 d3 d4 d5
    rcases e with _ | e
    · obtain ⟨i1, i2, i3, i4, i5⟩ := ih g1
      exact ⟨i1.trans d1, i2.trans d2, i3.trans d3, i4.trans d4, i5.trans d5⟩
    · exact ⟨d1, d2, d3, d4, d5⟩

/-- `playDrawMove` never touches active players or winners. -/
theorem playDrawMove_misc (sh : List Card → List Card) (g : OngoingCardGame) :
    (playDrawMove sh g).1.activePlayers = g.activePlayers ∧
    (playDrawMove sh g).1.winners = g.winners := by
  unfold playDrawMove
  rcases hdc : drawCards sh (numDrawsOf g) g with ⟨g1, e⟩
  obtain ⟨d1, d2, _, _, _⟩ := drawCards_misc sh (numDrawsOf g) g
  rw [hdc] at d1 d2
  dsimp only at d1 d2
  rcases e with _ | e
  · dsimp only
    obtain ⟨_, _, _, _, _, _, _, a8, a9⟩ :=
      advanceMove_frame { g1 with lastDrawPlayed := none }
    exact ⟨a8.trans d1, a9.trans d2⟩
  · exact ⟨d1, d2⟩

/-- Agreement on the five card-location-relevant fields. -/
def Frame5 (a b : OngoingCardGame) : Prop :=
  a.activePlayers = b.activePlayers ∧ a.winners = b.winners ∧
  a.hands = b.hands ∧ a.deck = b.deck ∧ a.discardPile = b.discardPile

theorem frame5_refl (g : OngoingCardGame) : Frame5 g g :=
  ⟨rfl, rfl, rfl, rfl, rfl⟩

theorem frame5_trans {a b c : OngoingCardGame} (h1 : Frame5 a b) (h2 : Frame5 b c) :
    Frame5 a c :=
  ⟨h1.1.trans h2.1, h1.2.1.trans h2.2.1, h1.2.2.1.trans h2.2.2.1,
   h1.2.2.2.1.trans h2.2.2.2.1, h1.2.2.2.2.trans h2.2.2.2.2⟩

theorem frame5_advanceMove (g : OngoingCardGame) : Frame5 (advanceMove g) g := by
  obtain ⟨_, _, _, _, _, _, _, a8, a9⟩ := advanceMove_frame g
  exact ⟨a8, a9, (advanceMove_frame g).1, (advanceMove_frame g).2.1,
    (advanceMove_frame g).2.2.1⟩

theorem frame5_dir (b : Bool) (g : OngoingCardGame) :
    Frame5 { g with playerDirection := b } g :=
  ⟨rfl, rfl, rfl, rfl, rfl⟩

theorem frame5_ldp (v : Option Nat) (g : OngoingCardGame) :
    Frame5 { g with lastDrawPlayed := v } g :=
  ⟨rfl, rfl, rfl, rfl, rfl⟩

/-- `applyCardEffects` never touches active players, winners, hands,
deck or discard pile. -/
theorem applyCardEffects_frame (c : Card) (g : OngoingCardGame) :
    Frame5 (applyCardEffects c g) g := by
  unfold applyCardEffects
  dsimp only
  split_ifs <;>
    repeat' first
      | exact frame5_refl _
      | apply frame5_trans (frame5_advanceMove _)
      | apply frame5_trans (frame5_dir _ _)
      | apply frame5_trans (frame5_ldp _ _)

/-- A successful `playMove` is either a successful draw move or a
validated card play followed by the effect block. -/
theorem playMove_success_cases (sh : List Card → List Card)
    (cb : OngoingCardGame → OngoingCardGame) (g g' : OngoingCardGame)
    (m : PlayableMove) (h : playMove sh cb g m = (g', none)) :
    (playDrawMove sh g = (g', none)) ∨
    (∃ ci c ncol, m.card = some ci ∧ g.lastDrawPlayed = none ∧
      (g.hands.getD g.currentPlayerIdx [])[ci]? = some c ∧
      g' = applyCardEffects c (playCardCore cb g
        (g.activePlayers.findIdx? (· = g.currentPlayerIdx)) ci c ncol)) := by
  unfold playMove at h
  dsimp only at h
  by_cases hm : m.type = true
  · rw [if_pos hm] at h
    exact Or.inl h
  · rw [if_neg hm] at h
    rcases hc : m.card with _ | ci <;> rw [hc] at h
    · simp at h
    · dsimp only at h
      by_cases hld : g.lastDrawPlayed ≠ none
      · rw [if_pos hld] at h
        simp at h
      · rw [if_neg hld] at h
        rw [not_ne_iff] at hld
        rw [List.get?_eq_getElem?] at h
        rcases hget : (g.hands.getD g.currentPlayerIdx [])[ci]? with _ | c <;>
          rw [hget] at h
        · simp at h
        · dsimp only at h
          split at h
          · simp at h
          · next ncol hncol =>
            injection h with h1 h2
            exact Or.inr ⟨ci, c, ncol, rfl, hld, hget, h1.symm⟩

/-- `eraseIdx` removes at most one element. -/
theorem length_eraseIdx_bounds (l : List Nat) (i : Nat) :
    l.length - 1 ≤ (l.eraseIdx i).length ∧ (l.eraseIdx i).length ≤ l.length := by
  induction l generalizing i with
  | nil => simp [List.eraseIdx]
  | cons a t ih =>
    rcases i with _ | j
    · simp [List.eraseIdx]
    · have := ih j
      simp only [List.eraseIdx, List.length_cons]
      omega

/-- `spliceOut` removes at most one element. -/
theorem spliceOut_length (l : List Nat) (ai : Option Nat) :
    l.length - 1 ≤ (spliceOut l ai).length ∧ (spliceOut l ai).length ≤ l.length := by
  rcases ai with _ | i
  · simp only [spliceOut, List.length_dropLast]
    omega
  · exact length_eraseIdx_bounds l i

/-- The active-players list after `updateIfGameEnded`. -/
theorem updateIfGameEnded_active (cb : OngoingCardGame → OngoingCardGame)
    (hcb : ∀ x, (cb x).activePlayers = x.activePlayers) (g : OngoingCardGame) :
    (updateIfGameEnded cb g).activePlayers =
      if g.activePlayers.length = 1 then [] else g.activePlayers := by
  unfold updateIfGameEnded
  split
  · rw [hcb]
  · rfl

/-- `playCardCore` preserves the never-exactly-one invariant of the
active-players list. -/
theorem playCardCore_active_len (cb : OngoingCardGame → OngoingCardGame)
    (hcb : ∀ x, (cb x).activePlayers = x.activePlayers)
    (g : OngoingCardGame) (ai : Option Nat) (ci : Nat) (c : Card) (ncol : String)
    (hpre : g.activePlayers.length = 0 ∨ 2 ≤ g.activePlayers.length) :
    (playCardCore cb g ai ci c ncol).activePlayers.length = 0 ∨
      2 ≤ (playCardCore cb g ai ci c ncol).activePlayers.length := by
  simp only [playCardCore]
  split
  · rw [updateIfGameEnded_active cb hcb]
    dsimp only
    have hb := spliceOut_length g.activePlayers ai
    split
    · left
      rfl
    · next hne => omega
  · exact hpre

/-- One successful public operation on an ongoing game: a move (play or
draw) through the area's `playMove`, a timeout skip, or a quit.  The
shuffle argument is constrained to be a permutation (which the in-place
Fisher-Yates `shuffleCards` always is), and the current player index
must denote a hand (JavaScript would crash otherwise); the end-of-game
callback is the real `_onGameEnd`. -/
inductive Step : OngoingCardGame → OngoingCardGame → Prop where
  | play (sh : List Card → List Card) (tp : ℚ → ℚ) (now : Nat) (m : PlayableMove)
      (g g1 g' : OngoingCardGame) :
      (∀ l, (sh l).Perm l) →
      g.currentPlayerIdx < g.hands.length →
      g.currentPlayerIdx ∈ g.activePlayers →
      playMove sh (onGameEnd tp) g m = (g1, none) →
      g' = { g1 with moves := g1.moves ++
        [{ playerId := (g.players.getD g.currentPlayerIdx default).playerId,
           timestamp := now, move := BasicMove.playable m }] } →
      Step g g'
  | skipTimeout (sh : List Card → List Card) (now : Nat) (g g' : OngoingCardGame) :
      (∀ l, (sh l).Perm l) →
      g.currentPlayerIdx < g.hands.length →
      g.activePlayers ≠ [] →
      playDrawMove sh { g with moves := g.moves ++
        [{ playerId := (g.players.getD g.currentPlayerIdx default).playerId,
           timestamp := now, move := BasicMove.skip }] } = (g', none) →
      Step g g'
  | quit (tp : ℚ → ℚ) (now : Nat) (pid : Option String) (g g' : OngoingCardGame) :
      quitCardGame (onGameEnd tp) now g pid = (g', none) →
      Step g g'

/-- Ongoing-game states reachable from a successful `startCardGame`
through successful operations. -/
inductive Reachable : OngoingCardGame → Prop where
  | start (shuffles : Nat → List Card → List Card) (now : Nat)
      (area : CardGameAreaState) (gameId : String) (color : Option String)
      (g : OngoingCardGame) :
      (startCardGame shuffles now area gameId color).2 = none →
      (startCardGame shuffles now area gameId color).1.ongoingGames.getLast? = some g →
      Reachable g
  | step (g g' : OngoingCardGame) : Reachable g → Step g g' → Reachable g'

/-- A successful start produces, as the appended game, a game whose
players are the pending game's (between 2 and 8 of them) with all of
them active, in index order. -/
theorem startCardGame_success_last (shuffles : Nat → List Card → List Card)
    (now : Nat) (area : CardGameAreaState) (gameId : String) (color : Option String)
    (g : OngoingCardGame)
    (hok : (startCardGame shuffles now area gameId color).2 = none)
    (hlast :
      (startCardGame shuffles now area gameId color).1.ongoingGames.getLast? = some g) :
    ∃ ncg : NonStartedCardGame, MIN_PLAYERS ≤ ncg.players.length ∧
      ncg.players.length ≤ MAX_PLAYERS ∧
      g.activePlayers = List.range ncg.players.length ∧
      g.players = ncg.players := by
  unfold startCardGame at hok hlast
  rcases hf : area.nonStartedGames.findIdx? (fun game => game.id = gameId)
    with _ | idx <;> rw [hf] at hok hlast
  · simp at hok
  · dsimp only at hok hlast
    by_cases h1 : (area.nonStartedGames.getD idx default).players.length < MIN_PLAYERS
    · rw [if_pos h1] at hok
      simp at hok
    · rw [if_neg h1] at hok hlast
      by_cases h2 : (area.nonStartedGames.getD idx default).players.length > MAX_PLAYERS
      · rw [if_pos h2] at hok
        simp at hok
      · rw [if_neg h2] at hok hlast
        rcases hdl : dealLoop shuffles now
            (area.nonStartedGames.getD idx default).players 100 0 (genUnoDeck color)
          with ⟨deckF, od⟩ <;> rw [hdl] at hok hlast
        rcases od with _ | d
        · simp at hok
        · dsimp only at hlast
          rw [List.getLast?_concat] at hlast
          injection hlast with hg
          subst hg
          exact ⟨area.nonStartedGames.getD idx default, by omega, by omega, rfl, rfl⟩

/-- A successful quit preserves the never-exactly-one invariant of the
active-players list. -/
theorem quit_active_len (cb : OngoingCardGame → OngoingCardGame)
    (hcb : ∀ x, (cb x).activePlayers = x.activePlayers)
    (now : Nat) (g : OngoingCardGame) (pid : Option String)
    (hok : (quitCardGame cb now g pid).2 = none)
    (hpre : g.activePlayers.length = 0 ∨ 2 ≤ g.activePlayers.length) :
    (quitCardGame cb now g pid).1.activePlayers.length = 0 ∨
      2 ≤ (quitCardGame cb now g pid).1.activePlayers.length := by
  rcases hp : g.players.findIdx? (fun p => pid = some p.playerId) with _ | playerIdx
  · rw [quitCardGame.eq_def, hp] at hok
    simp at hok
  rcases ha : g.activePlayers.findIdx? (· = playerIdx) with _ | activeIdx
  · simp only [quitCardGame, hp, ha] at hok
    simp at hok
  have hne : g.activePlayers ≠ [] := by
    intro h
    rw [h] at ha
    simp [List.findIdx?] at ha
  have hl2 : 2 ≤ g.activePlayers.length := by
    rcases hpre with h | h
    · exact absurd (List.length_eq_zero.mp h) hne
    · exact h
  have hq : quitCardGame cb now g pid =
      (let g2 := updateIfGameEnded cb { g with
        activePlayers := g.activePlayers.eraseIdx activeIdx,
        moves := g.moves ++
          [{ playerId := (g.players.getD playerIdx default).playerId,
             timestamp := now, move := BasicMove.quit }] }
       (if playerIdx = g2.currentPlayerIdx then advanceMove g2 else g2, none)) := by
    simp only [quitCardGame, hp, ha]
  rw [hq]
  dsimp only
  have hb := length_eraseIdx_bounds g.activePlayers activeIdx
  have hupd := updateIfGameEnded_active cb hcb { g with
    activePlayers := g.activePlayers.eraseIdx activeIdx,
    moves := g.moves ++
      [{ playerId := (g.players.getD playerIdx default).playerId,
         timestamp := now, move := BasicMove.quit }] }
  dsimp only at hupd
  split
  · rw [(advanceMove_frame _).2.2.2.2.2.2.2.1, hupd]
    split
    · left
      rfl
    · next hne1 => omega
  · rw [hupd]
    split
    · left
      rfl
    · next hne1 => omega

/-- C6: in every reachable ongoing-game state, `activePlayers` is empty
or has at least two members — a state with exactly one active player is
never observable — and whenever an operation leaves exactly one active
player, `updateIfGameEnded` (run within that same operation) pushes the
remaining index onto `winners` and empties `activePlayers`. -/
theorem c6_active_players_never_one :
    (∀ g, Reachable g →
      g.activePlayers.length = 0 ∨ 2 ≤ g.activePlayers.length) ∧
    (∀ cb h, (∀ x : OngoingCardGame, (cb x).activePlayers = x.activePlayers ∧
        (cb x).winners = x.winners) →
      h.activePlayers.length = 1 →
      (updateIfGameEnded cb h).activePlayers = [] ∧
      (updateIfGameEnded cb h).winners = h.winners ++ [h.activePlayers.headI]) := by
  constructor
  · intro g hr
    induction hr with
    | start shuffles now area gameId color g hok hlast =>
      obtain ⟨ncg, hmin, hmax, hap, _⟩ :=
        startCardGame_success_last shuffles now area gameId color g hok hlast
      rw [hap, List.length_range]
      right
      exact hmin
    | step g g' hr hs ih =>
      rcases hs with
        ⟨sh, tp, now, m, g, g1, g', hsh, hidx, hact, hpm, hg'⟩
        | ⟨sh, now, g, g', hsh, hidx, hne, hpd⟩
        | ⟨tp, now, pid, g, g', hq⟩
      · subst hg'
        dsimp only
        rcases playMove_success_cases sh (onGameEnd tp) g g1 m hpm with hd | hp
        · have := (playDrawMove_misc sh g).1
          rw [hd] at this
          dsimp only at this
          rw [this]
          exact ih
        · obtain ⟨ci, c, ncol, _, _, _, hg1⟩ := hp
          rw [hg1, (applyCardEffects_frame c _).1]
          exact playCardCore_active_len (onGameEnd tp) (fun _ => rfl) g _ ci c ncol ih
      · have := (playDrawMove_misc sh { g with moves := g.moves ++
          [{ playerId := (g.players.getD g.currentPlayerIdx default).playerId,
             timestamp := now, move := BasicMove.skip }] }).1
        rw [hpd] at this
        dsimp only at this
        rw [this]
        exact ih
      · have : (quitCardGame (onGameEnd tp) now g pid).1 = g' := by rw [hq]
        rw [← this]
        exact quit_active_len (onGameEnd tp) (fun _ => rfl) now g pid
          (by rw [hq]) ih
  · intro cb h hcb h1
    unfold updateIfGameEnded
    rw [if_pos h1]
    exact ⟨(hcb _).1, (hcb _).2⟩

/-- The identity permutation family, standing in for `shuffleCards`. -/
def idShuffles : Nat → List Card → List Card := fun _ d => d

/-- A concrete area holding one two-player pending game. -/
def startArea : CardGameAreaState where
  nonStartedGames := [{ id := "g0", players := [⟨"p0", "P0"⟩, ⟨"p1", "P1"⟩] }]
  ongoingGames := []

/-- The ongoing game produced by starting `startArea`'s pending game
with identity shuffles and a full deck. -/
def startedGame : OngoingCardGame :=
  ((startCardGame idShuffles 0 startArea "g0" none).1.ongoingGames.getLast?).getD default

/-- C6 (witness): the invariant theorem applied to the concretely
started two-player game. -/
theorem c6_witness :
    (startCardGame idShuffles 0 startArea "g0" none).2 = none ∧
    (startCardGame idShuffles 0 startArea "g0" none).1.ongoingGames.getLast? =
      some startedGame ∧
    (startedGame.activePlayers.length = 0 ∨ 2 ≤ startedGame.activePlayers.length) :=
  ⟨by decide, by decide,
    c6_active_players_never_one.1 startedGame
      (Reachable.start idShuffles 0 startArea "g0" none startedGame
        (by decide) (by decide))⟩

/-! ## C7: card conservation -/

/-- Two states agreeing on hands, deck and discard pile hold the same
number of cards. -/
theorem totalCards_congr {a b : OngoingCardGame} (hh : a.hands = b.hands)
    (hd : a.deck = b.deck) (hp : a.discardPile = b.discardPile) :
    totalCards a = totalCards b := by
  unfold totalCards
  rw [hh, hd, hp]

/-- Replacing the hand at a valid index changes the total hand-card
count by the difference of the hand lengths. -/
theorem handsSum_set (l : List (List Card)) (i : Nat) (x : List Card)
    (h : i < l.length) :
    ((l.set i x).map List.length).sum + (l.getD i []).length =
      (l.map List.length).sum + x.length := by
  induction l generalizing i with
  | nil => simp at h
  | cons a t ih =>
    rcases i with _ | j
    · simp only [List.set, List.getD_cons_zero, List.map_cons, List.sum_cons]
      omega
    · simp only [List.set, List.getD_cons_succ, List.map_cons, List.sum_cons]
      have := ih j (by simpa using h)
      omega

/-- Erasing a valid index shortens a list by exactly one. -/
theorem length_eraseIdx_lt {α : Type} (l : List α) (i : Nat) (h : i < l.length) :
    (l.eraseIdx i).length = l.length - 1 := by
  induction l generalizing i with
  | nil => simp at h
  | cons a t ih =>
    rcases i with _ | j
    · simp [List.eraseIdx]
    · have h2 : j < t.length := by
        simp only [List.length_cons] at h
        omega
      have h3 := ih j h2
      show (a :: t.eraseIdx j).length = (a :: t).length - 1
      simp only [List.length_cons]
      omega

/-- A successful `drawCard` conserves the total card count: either one
card moves from the deck to the hand (with the reshuffle, when it
fires, recycling `discardPile.length - 1` cards into the deck), or
nothing moves at all. -/
theorem drawCard_totalCards (sh : List Card → List Card)
    (hsh : ∀ l : List Card, (sh l).Perm l) (g : OngoingCardGame)
    (hidx : g.currentPlayerIdx < g.hands.length)
    (hok : (drawCard sh g).2 = none) :
    totalCards (drawCard sh g).1 = totalCards g := by
  by_cases hd0 : g.deck.length = 0
  · rcases hgl : g.discardPile.getLast? with _ | newCard
    · exfalso
      simp only [drawCard, if_pos hd0, hgl] at hok
      simp at hok
    · have hdp : g.discardPile ≠ [] := by
        intro hnil
        rw [hnil] at hgl
        simp at hgl
      have hlen : (sh g.discardPile.dropLast).length = g.discardPile.length - 1 := by
        rw [(hsh _).length_eq, List.length_dropLast]
      have hdplen : 1 ≤ g.discardPile.length :=
        Nat.one_le_iff_ne_zero.mpr (by
          intro hz
          exact hdp (List.length_eq_zero.mp hz))
      simp only [drawCard, if_pos hd0, hgl]
      split
      · next hne =>
          unfold totalCards
          dsimp only
          have hsum := handsSum_set g.hands g.currentPlayerIdx
            ((g.hands.getD g.currentPlayerIdx []) ++
              [(sh g.discardPile.dropLast).headI]) hidx
          rw [List.length_append] at hsum
          simp only [List.length_drop, List.length_cons, List.length_nil,
            List.length_singleton] at hsum ⊢
          omega
      · next hne =>
          rw [not_ne_iff] at hne
          unfold totalCards
          dsimp only
          simp only [List.length_singleton]
          omega
  · simp only [drawCard, if_neg hd0]
    rw [if_pos hd0]
    unfold totalCards
    dsimp only
    have hsum := handsSum_set g.hands g.currentPlayerIdx
      ((g.hands.getD g.currentPlayerIdx []) ++ [g.deck.headI]) hidx
    rw [List.length_append] at hsum
    simp only [List.length_drop, List.length_cons, List.length_nil,
      List.length_singleton] at hsum ⊢
    omega

/-- Successful iterated draws conserve the total card count. -/
theorem drawCards_totalCards (sh : List Card → List Card)
    (hsh : ∀ l : List Card, (sh l).Perm l) (n : Nat) (g : OngoingCardGame)
    (hidx : g.currentPlayerIdx < g.hands.length)
    (hok : (drawCards sh n g).2 = none) :
    totalCards (drawCards sh n g).1 = totalCards g := by
  induction n generalizing g with
  | zero => rfl
  | succ n ih =>
    rw [drawCards] at hok ⊢
    rcases hdc : drawCard sh g with ⟨g1, e⟩
    rw [hdc] at hok
    rcases e with _ | e
    · dsimp only at hok ⊢
      have h1 : totalCards g1 = totalCards g := by
        have := drawCard_totalCards sh hsh g hidx (by rw [hdc])
        rw [hdc] at this
        exact this
      have hmisc := drawCard_misc sh g
      rw [hdc] at hmisc
      dsimp only at hmisc
      have hidx1 : g1.currentPlayerIdx < g1.hands.length := by
        rw [hmisc.2.2.1, hmisc.2.2.2.1]
        exact hidx
      exact (ih g1 hidx1 hok).trans h1
    · dsimp only at hok
      simp at hok

/-- A successful `playDrawMove` conserves the total card count. -/
theorem playDrawMove_totalCards (sh : List Card → List Card)
    (hsh : ∀ l : List Card, (sh l).Perm l) (g : OngoingCardGame)
    (hidx : g.currentPlayerIdx < g.hands.length)
    (hok : (playDrawMove sh g).2 = none) :
    totalCards (playDrawMove sh g).1 = totalCards g := by
  unfold playDrawMove at hok ⊢
  rcases hdc : drawCards sh (numDrawsOf g) g with ⟨g1, e⟩
  rw [hdc] at hok
  rcases e with _ | e
  · dsimp only
    have h1 : totalCards g1 = totalCards g := by
      have := drawCards_totalCards sh hsh (numDrawsOf g) g hidx (by rw [hdc])
      rw [hdc] at this
      exact this
    refine Eq.trans (totalCards_congr ?_ ?_ ?_) h1 <;>
      simp [advanceMove_frame, (advanceMove_frame _).1, (advanceMove_frame _).2.1,
        (advanceMove_frame _).2.2.1]
  · dsimp only at hok
    simp at hok

/-- `playCardCore` conserves the total card count: the played card moves
from the hand to the discard pile. -/
theorem playCardCore_totalCards (cb : OngoingCardGame → OngoingCardGame)
    (hcb : ∀ h, (cb h).hands = h.hands ∧ (cb h).deck = h.deck ∧
      (cb h).discardPile = h.discardPile ∧ (cb h).currentColor = h.currentColor ∧
      (cb h).lastDrawPlayed = h.lastDrawPlayed ∧ (cb h).players = h.players ∧
      (cb h).playerDirection = h.playerDirection)
    (g : OngoingCardGame) (ai : Option Nat) (ci : Nat) (c : Card) (ncol : String)
    (hidx : g.currentPlayerIdx < g.hands.length)
    (hci : ci < (g.hands.getD g.currentPlayerIdx []).length) :
    totalCards (playCardCore cb g ai ci c ncol) = totalCards g := by
  have hcore : totalCards ({ g with
      currentColor := ncol,
      hands := g.hands.set g.currentPlayerIdx
        ((g.hands.getD g.currentPlayerIdx []).eraseIdx ci),
      discardPile := g.discardPile ++ [c] } : OngoingCardGame) = totalCards g := by
    unfold totalCards
    dsimp only
    have hsum := handsSum_set g.hands g.currentPlayerIdx
      ((g.hands.getD g.currentPlayerIdx []).eraseIdx ci) hidx
    rw [length_eraseIdx_lt _ ci hci] at hsum
    rw [List.length_append]
    simp only [List.length_singleton]
    omega
  simp only [playCardCore]
  split
  · obtain ⟨e1, e2, e3, _, _, _, _⟩ := updateIfGameEnded_frame cb hcb
      { { g with
          currentColor := ncol,
          hands := g.hands.set g.currentPlayerIdx
            ((g.hands.getD g.currentPlayerIdx []).eraseIdx ci),
          discardPile := g.discardPile ++ [c] } with
        winners := g.winners ++ [g.currentPlayerIdx],
        activePlayers := spliceOut g.activePlayers ai }
    exact (totalCards_congr e1 e2 e3).trans hcore
  · exact hcore

/-- Every successful `Step` conserves the total card count. -/
theorem step_totalCards (g g' : OngoingCardGame) (h : Step g g') :
    totalCards g' = totalCards g := by
  rcases h with
    ⟨sh, tp, now, m, g, g1, g', hsh, hidx, hact, hpm, hg'⟩
    | ⟨sh, now, g, g', hsh, hidx, hne, hpd⟩
    | ⟨tp, now, pid, g, g', hq⟩
  · subst hg'
    have hmove : totalCards g1 = totalCards g := by
      rcases playMove_success_cases sh (onGameEnd tp) g g1 m hpm with hd | hp
      · have := playDrawMove_totalCards sh hsh g hidx (by rw [hd])
        rw [hd] at this
        exact this
      · obtain ⟨ci, c, ncol, _, _, hget, hg1⟩ := hp
        have hci : ci < (g.hands.getD g.currentPlayerIdx []).length := by
          have := List.getElem?_eq_some.mp hget
          exact this.1
        rw [hg1]
        obtain ⟨_, _, f3, f4, f5⟩ := applyCardEffects_frame c
          (playCardCore (onGameEnd tp) g
            (g.activePlayers.findIdx? (· = g.currentPlayerIdx)) ci c ncol)
        refine (totalCards_congr f3 f4 f5).trans ?_
        exact playCardCore_totalCards (onGameEnd tp)
          (fun x => ⟨rfl, rfl, rfl, rfl, rfl, rfl, rfl⟩) g _ ci c ncol hidx hci
    exact hmove
  · have := playDrawMove_totalCards sh hsh { g with moves := g.moves ++
      [{ playerId := (g.players.getD g.currentPlayerIdx default).playerId,
         timestamp := now, move := BasicMove.skip }] } hidx (by rw [hpd])
    rw [hpd] at this
    exact this
  · obtain ⟨f1, f2, f3, _, _, _, _⟩ := quitCardGame_frame (onGameEnd tp)
      (fun x => ⟨rfl, rfl, rfl, rfl, rfl, rfl, rfl⟩) now g pid (by rw [hq])
    rw [hq] at f1 f2 f3
    exact totalCards_congr f1 f2 f3

/-- C7: the total number of cards in the deck, the discard pile and all
hands together is invariant across every sequence of successful play,
draw, timeout-skip and quit operations — playing moves one card from a
hand to the discard pile, drawing moves one card from the deck to a hand
(or is a no-op), the reshuffle-on-empty moves all but the top discard
card into the deck, and quitting moves no cards. -/
theorem c7_total_cards_invariant (g g' : OngoingCardGame)
    (h : Relation.ReflTransGen Step g g') : totalCards g' = totalCards g := by
  induction h with
  | refl => rfl
  | tail hab hbc ih => exact (step_totalCards _ _ hbc).trans ih

/-- The state after one draw move on `sampleGame` (the logged move
included, as the area's `playMove` appends it). -/
def c7stepGame : OngoingCardGame :=
  { (playMove id (onGameEnd fun _ => 1) sampleGame
      (PlayableMove.mk true none none)).1 with
    moves := (playMove id (onGameEnd fun _ => 1) sampleGame
      (PlayableMove.mk true none none)).1.moves ++
      [{ playerId := (sampleGame.players.getD sampleGame.currentPlayerIdx
           default).playerId,
         timestamp := 7, move := BasicMove.playable (PlayableMove.mk true none none) }] }

/-- C7 (witness): one concrete draw step on `sampleGame` conserves the
card count. -/
theorem c7_witness : totalCards c7stepGame = totalCards sampleGame :=
  c7_total_cards_invariant sampleGame c7stepGame
    (Relation.ReflTransGen.single
      (Step.play id (fun _ => 1) 7 (PlayableMove.mk true none none) sampleGame
        (playMove id (onGameEnd fun _ => 1) sampleGame
          (PlayableMove.mk true none none)).1
        c7stepGame (fun l => List.Perm.refl l) (by decide) (by decide)
        (by decide) rfl))

/-! ## C2: the 100-attempt deal loop in `startCardGame` -/

/-- The deck produced by applying `shuffles j, shuffles (j+1), ...`, `k`
times in a row, mirroring how the deal loop reshuffles the same deck on
every retry. -/
def shufSeq (shuffles : Nat → List Card → List Card) (j : Nat)
    (deck : List Card) : Nat → List Card
  | 0 => deck
  | k + 1 => shufSeq shuffles (j + 1) (shuffles j deck) k

/-- A deal attempt fails exactly when the drawn top discard card — the
card after the dealt hands — is a wild. -/
theorem dealAttempt_none_iff (now : Nat) (players : List CardGamePlayer)
    (deck : List Card) :
    dealAttempt now players deck = none ↔
      (deck.getD (DEFAULT_HAND_SIZE * players.length) default).isWild = true := by
  unfold dealAttempt
  dsimp only
  split
  · next h =>
      rw [List.getD_eq_getElem?_getD] at h
      simp [h]
  · next h =>
      simp only [Bool.not_eq_true] at h
      rw [List.getD_eq_getElem?_getD] at h
      simp [h]

/-- The deal loop fails exactly when every attempt within its fuel draws
a wild top card. -/
theorem dealLoop_none_iff (shuffles : Nat → List Card → List Card) (now : Nat)
    (players : List CardGamePlayer) :
    ∀ fuel j deck,
      (dealLoop shuffles now players fuel j deck).2 = none ↔
      (∀ k < fuel, dealAttempt now players (shufSeq shuffles j deck (k + 1)) = none) := by
  intro fuel
  induction fuel with
  | zero => simp [dealLoop]
  | succ fuel ih =>
    intro j deck
    rw [dealLoop]
    rcases hda : dealAttempt now players (shuffles j deck) with _ | d
    · dsimp only
      rw [ih (j + 1) (shuffles j deck)]
      constructor
      · intro h k hk
        rcases k with _ | k'
        · exact hda
        · exact h k' (by omega)
      · intro h k hk
        exact h (k + 1) (by omega)
    · dsimp only
      constructor
      · intro h
        simp at h
      · intro h
        have h0 := h 0 (by omega)
        rw [show shufSeq shuffles j deck 1 = shuffles j deck from rfl] at h0
        rw [hda] at h0
        simp at h0

/-- C2 (amended): `startCardGame` retries the shuffle-and-deal at most
100 times and throws `'Failed to deal cards'` exactly when all 100
attempts draw a wild top discard card; on that failure the pending game
has already been removed from the area (so retrying the same game id
would fail with not-found), while the ongoing games are unchanged. -/
theorem c2_deal_retries (shuffles : Nat → List Card → List Card)
    (hsh : ∀ j d, (shuffles j d).Perm d)
    (now : Nat) (area : CardGameAreaState) (gameId : String) (color : Option String)
    (idx : Nat)
    (hf : area.nonStartedGames.findIdx? (fun game => game.id = gameId) = some idx)
    (hmin : ¬((area.nonStartedGames.getD idx default).players.length < MIN_PLAYERS))
    (hmax : ¬((area.nonStartedGames.getD idx default).players.length > MAX_PLAYERS)) :
    ((startCardGame shuffles now area gameId color).2 = some "Failed to deal cards" ↔
      (∀ k < 100,
        ((shufSeq shuffles 0 (genUnoDeck color) (k + 1)).getD
          (DEFAULT_HAND_SIZE *
            (area.nonStartedGames.getD idx default).players.length)
          default).isWild = true)) ∧
    ((startCardGame shuffles now area gameId color).2 = some "Failed to deal cards" →
      (startCardGame shuffles now area gameId color).1.nonStartedGames =
        area.nonStartedGames.eraseIdx idx ∧
      (startCardGame shuffles now area gameId color).1.ongoingGames =
        area.ongoingGames) := by
  have hloop := dealLoop_none_iff shuffles now
    (area.nonStartedGames.getD idx default).players 100 0 (genUnoDeck color)
  have hattempt : ∀ k, (dealAttempt now
      (area.nonStartedGames.getD idx default).players
      (shufSeq shuffles 0 (genUnoDeck color) (k + 1)) = none) ↔
      ((shufSeq shuffles 0 (genUnoDeck color) (k + 1)).getD
        (DEFAULT_HAND_SIZE *
          (area.nonStartedGames.getD idx default).players.length)
        default).isWild = true :=
    fun k => dealAttempt_none_iff now _ _
  unfold startCardGame
  rw [hf]
  dsimp only
  rw [if_neg hmin, if_neg hmax]
  rcases hdl : dealLoop shuffles now
      (area.nonStartedGames.getD idx default).players 100 0 (genUnoDeck color)
    with ⟨deckF, od⟩
  rw [hdl] at hloop
  rcases od with _ | d
  · dsimp only at hloop ⊢
    constructor
    · constructor
      · intro _ k hk
        exact (hattempt k).mp ((hloop.mp rfl) k hk)
      · intro _
        rfl
    · intro _
      exact ⟨rfl, rfl⟩
  · dsimp only at hloop ⊢
    constructor
    · constructor
      · intro h
        simp at h
      · intro h
        have : (some d : Option DealData) = none := hloop.mpr
          (fun k hk => (hattempt k).mpr (h k hk))
        simp at this
    · intro h
      simp at h

/-- The full deck with its eight wilds moved to positions 14–21, so that
a two-player deal always draws a wild top card; a permutation of
`genUnoDeck none`, as every `shuffleCards` outcome is. -/
def badDeck : List Card :=
  ((genUnoDeck none).take 14) ++
    ((List.range 4).flatMap fun _ => [Card.wild, Card.wild_draw_four]) ++
    (((genUnoDeck none).take 64).drop 14)

/-- A shuffle oracle that lands on `badDeck` every time. -/
def badShuffles : Nat → List Card → List Card := fun _ _ => badDeck

/-- C2 (counterexample): when all 100 attempts draw a wild top card,
`startCardGame` throws `'Failed to deal cards'` but the pending game has
already been removed from the area — the state is not unchanged, so the
caller cannot retry the same start. -/
theorem c2_failed_deal_removes_pending :
    (startCardGame badShuffles 0 startArea "g0" none).2 =
      some "Failed to deal cards" ∧
    (startCardGame badShuffles 0 startArea "g0" none).1.nonStartedGames = [] ∧
    startArea.nonStartedGames ≠ [] := by decide

/-- C2 (witness): the retry theorem applied to the concrete area, with
the identity shuffles (under which the deal succeeds, so the failure
message does not appear). -/
theorem c2_witness :
    (startArea.nonStartedGames.findIdx? (fun game => game.id = "g0") = some 0) ∧
    ¬((startCardGame idShuffles 0 startArea "g0" none).2 =
      some "Failed to deal cards") := by
  have h := c2_deal_retries idShuffles (fun _ d => List.Perm.refl d) 0 startArea
    "g0" none 0 (by decide) (by decide) (by decide)
  refine ⟨by decide, fun hc => ?_⟩
  have := (h.1.mp hc) 0 (by omega)
  revert this
  decide

/-! ## C8: end-of-game Elo calculation -/

/-- With pairwise-distinct player ids, `find?` on a list parallel to the
player list resolves to the entry at the player's index. -/
theorem find?_parallel (l : List EloRating) (pid : String) (i : Nat)
    (hi : i < l.length) (hpid : (l.getD i default).playerId = pid)
    (hnd : (l.map (fun e => e.playerId)).Nodup) :
    l.find? (fun e => e.playerId = pid) = some (l.getD i default) := by
  induction l generalizing i with
  | nil => simp at hi
  | cons a t ih =>
    rcases i with _ | j
    · simp only [List.getD_cons_zero] at hpid ⊢
      rw [List.find?_cons_of_pos _ (by simp [hpid])]
    · simp only [List.getD_cons_succ] at hpid ⊢
      simp only [List.map_cons, List.nodup_cons] at hnd
      have hj : j < t.length := by simpa using hi
      have hmem : pid ∈ t.map (fun e => e.playerId) := by
        rw [← hpid, List.getD_eq_getElem t default hj]
        exact List.mem_map_of_mem _ (List.getElem_mem hj)
      have hne : ¬(a.playerId = pid) := fun h => hnd.1 (h ▸ hmem)
      rw [List.find?_cons_of_neg _ (by simp [hne])]
      exact ih j hj hpid hnd.2

/-- The claim's rating formula, stated from the spec's words: new rating
is the prior rating plus `50*(n-1)*(actualScore - expectedScore)`
rounded to the nearest integer, where `n` is the player count,
`expectedScore` sums `1/(1+10^((opp-self)/400))` over every other
player divided by `C(n,2)`, and `actualScore` is `(n-rank-1)/C(n,2)`
(`tenPow` abstracts the float exponential `x ↦ 10^x`). -/
def claimedNewElo (tenPow : ℚ → ℚ) (g : OngoingCardGame) (i rank : Nat) : ℤ :=
  let prevRating := (g.prevEloRatings.getD i default).rating
  let n : ℚ := g.players.length
  let totalExpectedScore :=
    ((g.prevEloRatings.filter
      (fun e => e.playerId ≠ (g.players.getD i default).playerId)).map
      (fun e => 1 / (1 + tenPow ((e.rating - prevRating) / 400)))).sum
  let expectedScore := totalExpectedScore / choose2 n
  let actualScore := (n - rank - 1) / choose2 n
  round (prevRating + 50 * (n - 1) * (actualScore - expectedScore))

/-- The code's per-player rating change agrees with the claim's formula
when the prior-ratings snapshot is parallel to the player list and ids
are pairwise distinct. -/
theorem calcEloRatingChange_fields (tenPow : ℚ → ℚ) (g : OngoingCardGame)
    (i rank : Nat) (hi : i < g.players.length)
    (hpar : g.prevEloRatings.map (fun e => e.playerId) =
      g.players.map (fun p => p.playerId))
    (hnd : (g.players.map (fun p => p.playerId)).Nodup) :
    (calcEloRatingChange tenPow (g.players.getD i default).playerId rank
        g).player.playerId = (g.players.getD i default).playerId ∧
    (calcEloRatingChange tenPow (g.players.getD i default).playerId rank
        g).prevElo = (g.prevEloRatings.getD i default).rating ∧
    (calcEloRatingChange tenPow (g.players.getD i default).playerId rank
        g).newElo = claimedNewElo tenPow g i rank := by
  have hlen : g.prevEloRatings.length = g.players.length := by
    have := congrArg List.length hpar
    simpa using this
  have hpe : i < g.prevEloRatings.length := by omega
  have hpid : (g.prevEloRatings.getD i default).playerId =
      (g.players.getD i default).playerId := by
    rw [List.getD_eq_getElem _ _ hpe, List.getD_eq_getElem _ _ hi]
    have h2 : (g.prevEloRatings.map (fun e => e.playerId))[i]? =
        (g.players.map (fun p => p.playerId))[i]? := by
      rw [hpar]
    rw [List.getElem?_map, List.getElem?_map, List.getElem?_eq_getElem hpe,
      List.getElem?_eq_getElem hi] at h2
    simpa using h2
  have hnd' : (g.prevEloRatings.map (fun e => e.playerId)).Nodup := by
    rw [hpar]
    exact hnd
  have hfind := find?_parallel g.prevEloRatings
    (g.players.getD i default).playerId i hpe hpid hnd'
  unfold calcEloRatingChange claimedNewElo
  dsimp only
  rw [hfind]
  refine ⟨rfl, rfl, ?_⟩
  simp only [Option.getD_some]
  rw [hlen]

/-- Entries already accumulated survive the non-winner pass. -/
theorem addNonWinnerElos_mem (tp : ℚ → ℚ) (g : OngoingCardGame) :
    ∀ ps acc (e : EloRatingChange), e ∈ acc →
      e ∈ addNonWinnerElos tp g ps acc := by
  intro ps
  induction ps with
  | nil =>
    intro acc e he
    exact he
  | cons q qs ih =>
    intro acc e he
    rw [addNonWinnerElos]
    split
    · exact ih acc e he
    · exact ih _ e (List.mem_append_left _ he)

/-- A player not yet represented in the accumulator receives an entry at
rank `winners.length` during the non-winner pass. -/
theorem addNonWinnerElos_adds (tp : ℚ → ℚ) (g : OngoingCardGame) :
    ∀ ps acc (p : CardGamePlayer), p ∈ ps →
      (ps.map (fun q => q.playerId)).Nodup →
      (∀ e ∈ acc, ¬(e.player.playerId = p.playerId)) →
      calcEloRatingChange tp p.playerId g.winners.length g ∈
        addNonWinnerElos tp g ps acc := by
  intro ps
  induction ps with
  | nil =>
    intro acc p hp
    simp at hp
  | cons q qs ih =>
    intro acc p hp hnd hacc
    rw [addNonWinnerElos]
    simp only [List.map_cons, List.nodup_cons] at hnd
    rcases List.mem_cons.mp hp with rfl | hp'
    · split
      · next hany =>
          exfalso
          rw [List.any_eq_true] at hany
          obtain ⟨e, he, hpe⟩ := hany
          exact hacc e he (by simpa using hpe)
      · exact addNonWinnerElos_mem tp g qs _ _
          (List.mem_append_right _ (by simp))
    · have hqp : ¬(q.playerId = p.playerId) := by
        intro h
        exact hnd.1 (h ▸ List.mem_map_of_mem _ hp')
      split
      · exact ih acc p hp' hnd.2 hacc
      · refine ih _ p hp' hnd.2 ?_
        intro e he
        rcases List.mem_append.mp he with h1 | h2
        · exact hacc e h1
        · simp only [List.mem_singleton] at h2
          subst h2
          exact fun h => hqp h

/-- C8: at game end, winners are ranked in winners-list order and every
player never added to `winners` is ranked `winners.length`; each such
player receives an elo entry whose `prevElo` is their prior rating and
whose `newElo` follows the claim's formula
`round(prior + 50*(n-1)*(actualScore - expectedScore))` (with the float
exponential abstracted as `tenPow`). -/
theorem c8_elo_formula (tenPow : ℚ → ℚ) (g : OngoingCardGame)
    (hpar : g.prevEloRatings.map (fun e => e.playerId) =
      g.players.map (fun p => p.playerId))
    (hnd : (g.players.map (fun p => p.playerId)).Nodup)
    (hw : ∀ w ∈ g.winners, w < g.players.length) :
    (∀ k, k < g.winners.length →
      ∃ e ∈ calculateNewElos tenPow g,
        e.player.playerId =
          (g.players.getD (g.winners.getD k 0) default).playerId ∧
        e.prevElo = (g.prevEloRatings.getD (g.winners.getD k 0) default).rating ∧
        e.newElo = claimedNewElo tenPow g (g.winners.getD k 0) k) ∧
    (∀ i, i < g.players.length → i ∉ g.winners →
      ∃ e ∈ calculateNewElos tenPow g,
        e.player.playerId = (g.players.getD i default).playerId ∧
        e.prevElo = (g.prevEloRatings.getD i default).rating ∧
        e.newElo = claimedNewElo tenPow g i g.winners.length) := by
  have hinj : ∀ a b, a < g.players.length → b < g.players.length →
      (g.players.getD a default).playerId = (g.players.getD b default).playerId →
      a = b := by
    intro a b ha hb hab
    rw [List.getD_eq_getElem _ _ ha, List.getD_eq_getElem _ _ hb] at hab
    have ham : a < (g.players.map (fun p => p.playerId)).length := by simpa using ha
    refine List.getElem?_inj ham hnd ?_
    rw [List.getElem?_map, List.getElem?_map, List.getElem?_eq_getElem ha,
      List.getElem?_eq_getElem hb]
    simp [hab]
  constructor
  · intro k hk
    have hwk : g.winners.getD k 0 ∈ g.winners := by
      rw [List.getD_eq_getElem _ _ hk]
      exact List.getElem_mem hk
    have hiw : g.winners.getD k 0 < g.players.length := hw _ hwk
    obtain ⟨f1, f2, f3⟩ :=
      calcEloRatingChange_fields tenPow g (g.winners.getD k 0) k hiw hpar hnd
    refine ⟨calcEloRatingChange tenPow
      (g.players.getD (g.winners.getD k 0) default).playerId k g, ?_, f1, f2, f3⟩
    unfold calculateNewElos
    exact addNonWinnerElos_mem tenPow g g.players _ _
      (List.mem_map.mpr ⟨k, List.mem_range.mpr hk, rfl⟩)
  · intro i hi hnw
    obtain ⟨f1, f2, f3⟩ :=
      calcEloRatingChange_fields tenPow g i g.winners.length hi hpar hnd
    refine ⟨calcEloRatingChange tenPow
      (g.players.getD i default).playerId g.winners.length g, ?_, f1, f2, f3⟩
    unfold calculateNewElos
    have hp : g.players.getD i default ∈ g.players := by
      rw [List.getD_eq_getElem _ _ hi]
      exact List.getElem_mem hi
    exact addNonWinnerElos_adds tenPow g g.players _ (g.players.getD i default)
      hp hnd (by
        intro e he
        obtain ⟨k, hkr, rfl⟩ := List.mem_map.mp he
        rw [List.mem_range] at hkr
        intro h
        have hwk : g.winners.getD k 0 ∈ g.winners := by
          rw [List.getD_eq_getElem _ _ hkr]
          exact List.getElem_mem hkr
        exact hnw (hinj _ _ (hw _ hwk) hi h ▸ hwk))

/-- A finished two-player game: player 0 went out first, both players
started at rating 1000. -/
def endedGame : OngoingCardGame where
  id := "game3"
  players := [⟨"p0", "P0"⟩, ⟨"p1", "P1"⟩]
  activePlayers := []
  spectators := []
  winners := [0, 1]
  hands := [[], [Card.number "red" 1]]
  moves := []
  deck := []
  discardPile := [Card.number "red" 5]
  currentColor := "red"
  lastDrawPlayed := none
  currentPlayerIdx := 1
  playerDirection := true
  prevEloRatings := [⟨"p0", "P0", 1000, 3⟩, ⟨"p1", "P1", 1000, 4⟩]
  eloRatingChanges := []
  cardsDrawnDuringGame := []
  startingTopCardDiscardPile := Card.number "red" 5
  initialHands := []
  startTime := 0

/-- C8 (witness): in the concrete two-player game with both priors 1000
(where the only exponent passed to `10^·` is 0, so the constant-one
`tenPow` models the float exponential exactly), the winner's entry is
exactly 1025 and the loser's exactly 975, via the formula theorem
applied at ranks 0 and 1. -/
theorem c8_witness :
    (calculateNewElos (fun _ => 1) endedGame).map
      (fun e => (e.player.playerId, e.newElo)) = [("p0", 1025), ("p1", 975)] := by
  have h0 : calculateNewElos (fun _ => 1) endedGame =
      [calcEloRatingChange (fun _ => 1) "p0" 0 endedGame,
       calcEloRatingChange (fun _ => 1) "p1" 1 endedGame] := rfl
  have hd00 : (decide (("p0" : String) = "p0") : Bool) = true := rfl
  have hd10 : (decide (("p1" : String) = "p0") : Bool) = false := rfl
  have hd01 : (decide (("p0" : String) = "p1") : Bool) = false := rfl
  have hd11 : (decide (("p1" : String) = "p1") : Bool) = true := rfl
  have hc0 : claimedNewElo (fun _ => 1) endedGame 0 0 = 1025 := by
    unfold claimedNewElo choose2
    simp only [endedGame, List.filter, hd00, hd10, Bool.not_true, Bool.not_false,
      List.map, List.sum_cons, List.sum_nil]
    refine Eq.trans (congrArg round ?_) (round_intCast 1025)
    push_cast
    norm_num
  have hc1 : claimedNewElo (fun _ => 1) endedGame 1 1 = 975 := by
    unfold claimedNewElo choose2
    simp only [endedGame, List.filter, hd01, hd11, Bool.not_true, Bool.not_false,
      List.map, List.sum_cons, List.sum_nil]
    refine Eq.trans (congrArg round ?_) (round_intCast 975)
    push_cast
    norm_num
  obtain ⟨e, he, hpe, _, hne⟩ := (c8_elo_formula (fun _ => 1) endedGame
    (by decide) (by decide) (by decide)).1 0 (by decide)
  obtain ⟨f, hf, hpf, _, hnf⟩ := (c8_elo_formula (fun _ => 1) endedGame
    (by decide) (by decide) (by decide)).1 1 (by decide)
  have hpe' : e.player.playerId = "p0" := hpe
  have hpf' : f.player.playerId = "p1" := hpf
  have hne' : e.newElo = 1025 := by
    have : e.newElo = claimedNewElo (fun _ => 1) endedGame 0 0 := hne
    rw [this, hc0]
  have hnf' : f.newElo = 975 := by
    have : f.newElo = claimedNewElo (fun _ => 1) endedGame 1 1 := hnf
    rw [this, hc1]
  rw [h0] at he hf
  have he' : e = calcEloRatingChange (fun _ => 1) "p0" 0 endedGame := by
    rcases List.mem_cons.mp he with h | h
    · exact h
    · exfalso
      simp only [List.mem_singleton] at h
      subst h
      have : ("p1" : String) = "p0" := hpe'
      simp at this
  have hf' : f = calcEloRatingChange (fun _ => 1) "p1" 1 endedGame := by
    rcases List.mem_cons.mp hf with h | h
    · exfalso
      subst h
      have : ("p0" : String) = "p1" := hpf'
      simp at this
    · simpa using h
  rw [h0, List.map_cons, List.map_cons, List.map_nil, ← he', ← hf',
    hpe', hpf', hne', hnf']

end Uno
